import Mathlib

/-! The jqplay server: lifecycle coordinator and request pipeline.

A shallow embedding of `server/server.go` (package `server`): the constants,
`newHTTPServer` (template loading, the gin router with its middleware chain and
route table, the `http.Server` value) and `Server.Start` (database connection,
the two actors of the `run.Group`, and the group's run).

Library calls made by the file are embedded by what they do to the values the
file handles: `gin` router registration (`Use`, `GET`, `POST`, `StaticFS`),
`gin.Context.String`, `run.Group` (`Add`, `Run`), `run.SignalHandler`,
`http.Server.ListenAndServe` and `http.Server.Shutdown`.

The run of the group follows `Group.Run` of `github.com/oklog/run`: one
goroutine per actor sends the value of `execute` on a buffered channel `errors`;
`Run` receives the first value, calls the interrupt function of every actor
with it, receives the remaining values and returns the first one.
`run.SignalHandler(ctx, sig)` is the actor whose `execute` returns
`SignalError` of the received signal, or `ctx.Err()` once its context is done,
and whose interrupt function cancels that context. Goroutines interleave; a run
is a list of events, and a statement about every run quantifies over every such
list.
-/

namespace Jqplay

/-! ## Errors and durations -/

/-- Go `error` values that flow through `server.go`. A Go `error` that may be
nil is an `Option GoError`. -/
inductive GoError where
  /-- an error produced by a collaborator (database, embedded file system,
  template parser, listener), identified by its message -/
  | msg (text : String)
  /-- Go `run.SignalError` with `Signal: sig`, by signal number -/
  | signalError (sig : Nat)
  /-- Go `context.Canceled` -/
  | canceled
  /-- Go `context.DeadlineExceeded` -/
  | deadlineExceeded
  /-- Go `http.ErrServerClosed` -/
  | serverClosed
  deriving DecidableEq, Repr

/-- Go `syscall.SIGTERM`. -/
def SIGTERM : Nat := 15

/-- Go `time.Duration` counts nanoseconds in an int64; `time.Second`. -/
def Second : Int := 1000000000

/-- Go `const requestTimeout = 5 * time.Second` (server.go:19-21). -/
def requestTimeout : Int := 5 * Second

/-- The duration passed to `context.WithTimeout` in the listener's interrupt
function: `28*time.Second` (server.go:48). -/
def shutdownTimeout : Int := 28 * Second

/-! ## Configuration and collaborators -/

/-- Modelled from the spec: `config.Config` is declared in package `config`,
outside `server.go`. The file reads `DatabaseURL` and `Port` and calls
`IsProd()`; the deployment mode is kept as the Boolean `IsProd()` reports. -/
structure Config where
  Port : String
  DatabaseURL : String
  Prod : Bool
  deriving DecidableEq, Repr

/-- Go `cfg.IsProd()`. -/
def Config.IsProd (cfg : Config) : Bool := cfg.Prod

/-- The database handle `*DB` returned by `ConnectDB`. -/
structure DB where
  conn : String
  deriving DecidableEq, Repr

/-- Go `type Server struct` with its one field `Config` (server.go:27-29). -/
structure Server where
  Config : Config
  deriving DecidableEq, Repr

/-- Go `func New(c *config.Config) *Server`. -/
def New (c : Config) : Server := ⟨c⟩

/-- A parsed `html/template` template: its name, delimiters and text. -/
structure Template where
  name : String
  leftDelim : String
  rightDelim : String
  text : String
  deriving DecidableEq, Repr

/-- The outcomes of the collaborators `Start` and `newHTTPServer` call and
whose code lies outside `server.go`. -/
structure Env where
  /-- Go `ConnectDB(url)` -/
  ConnectDB : String → Except GoError DB
  /-- Go `jqplay.PublicFS.ReadFile(name)` -/
  ReadFile : String → Except GoError String
  /-- Go `tmpl.Parse(text)`: the parse error, if any, of `text` under the
  template's delimiters -/
  Parse : Template → String → Option GoError

/-! ## The gin router -/

/-- The handler value `JQHandler` of server.go:83, with its `Config` and `DB`
(`JQExec` is `jq.NewJQExec()` in every call). -/
structure JQHandler where
  Config : Config
  DB : DB
  deriving DecidableEq, Repr

/-- The `gin.HandlerFunc` values that `newHTTPServer` creates: the six
middleware, the five method values of the `JQHandler`, the closure registered
for `/ping`, and the static-file handler that `StaticFS` creates. -/
inductive HandlerFunc where
  | Timeout (d : Int)
  | LimitContentLength (n : Int)
  | Secure (isProd : Bool)
  | RequestID
  | Logger
  | Recovery
  | handleIndex (h : JQHandler)
  | handleJqGet (h : JQHandler)
  | handleJqPost (h : JQHandler)
  | handleJqSharePost (h : JQHandler)
  | handleJqShareGet (h : JQHandler)
  | pingFunc
  | staticHandler (relativePath : String)
  deriving DecidableEq, Repr

/-- A registered route: method, path pattern and the handlers chain stored
for it. -/
structure Route where
  method : String
  path : String
  handlers : List HandlerFunc
  deriving DecidableEq, Repr

/-- The part of `gin.Engine` that `newHTTPServer` touches: the root group's
`Handlers` chain, the registered routes, and the HTML template. -/
structure Engine where
  Handlers : List HandlerFunc
  trees : List Route
  HTMLTemplates : Option Template
  deriving DecidableEq, Repr

/-- Go `gin.New()`: no middleware, no routes. -/
def Engine.New : Engine := ⟨[], [], none⟩

/-- Go `router.Use(middleware...)`: appends to the group's `Handlers`. -/
def Engine.Use (e : Engine) (mw : List HandlerFunc) : Engine :=
  { e with Handlers := e.Handlers ++ mw }

/-- Go `router.SetHTMLTemplate(tmpl)`. -/
def Engine.SetHTMLTemplate (e : Engine) (t : Template) : Engine :=
  { e with HTMLTemplates := some t }

/-- Go `group.handle(method, path, handlers)`: the chain stored for the route is
the group's current `Handlers` followed by the given handlers
(`combineHandlers`); the root group's base path is "/", so the absolute path is
the given one. -/
def Engine.handle (e : Engine) (method path : String) (hs : List HandlerFunc) : Engine :=
  { e with trees := e.trees ++ [⟨method, path, e.Handlers ++ hs⟩] }

/-- Go `router.GET(path, h)`. -/
def Engine.GET (e : Engine) (path : String) (h : HandlerFunc) : Engine :=
  e.handle "GET" path [h]

/-- Go `router.POST(path, h)`. -/
def Engine.POST (e : Engine) (path : String) (h : HandlerFunc) : Engine :=
  e.handle "POST" path [h]

/-- Go `router.StaticFS(relativePath, fs)`: registers the static handler for GET
and HEAD on `relativePath + "/*filepath"`. -/
def Engine.StaticFS (e : Engine) (relativePath : String) : Engine :=
  let handler := HandlerFunc.staticHandler relativePath
  let urlPattern := relativePath ++ "/*filepath"
  (e.handle "GET" urlPattern [handler]).handle "HEAD" urlPattern [handler]

/-- The arguments of `router.Use(...)` in `newHTTPServer` (server.go:73-80). -/
def middlewareChain (cfg : Config) : List HandlerFunc :=
  [ .Timeout requestTimeout,
    .LimitContentLength 10,
    .Secure cfg.IsProd,
    .RequestID,
    .Logger,
    .Recovery ]

/-- The router after `gin.New()`, `router.Use(...)` and
`router.SetHTMLTemplate(tmpl)` (server.go:72-81), before any route. -/
def routerWithMiddleware (cfg : Config) (tmpl : Template) : Engine :=
  (Engine.New.Use (middlewareChain cfg)).SetHTMLTemplate tmpl

/-- The router after the registrations of server.go:83-93. -/
def buildRouter (cfg : Config) (db : DB) (tmpl : Template) : Engine :=
  let router := routerWithMiddleware cfg tmpl
  let h : JQHandler := ⟨cfg, db⟩
  let router := router.StaticFS "/assets"
  let router := router.GET "/" (.handleIndex h)
  let router := router.GET "/jq" (.handleJqGet h)
  let router := router.POST "/jq" (.handleJqPost h)
  let router := router.POST "/s" (.handleJqSharePost h)
  let router := router.GET "/s/:id" (.handleJqShareGet h)
  let router := router.GET "/ping" .pingFunc
  router

/-- Go `http.Server` with the fields `Addr` and `Handler`. -/
structure HTTPServer where
  Addr : String
  Handler : Engine
  deriving DecidableEq, Repr

/-- Go `newHTTPServer(cfg, db)` (server.go:59-99): the pair `(*http.Server, error)`. -/
def newHTTPServer (env : Env) (cfg : Config) (db : DB) : Option HTTPServer × Option GoError :=
  match env.ReadFile "public/index.tmpl" with
  | .error err => (none, some err)
  | .ok b =>
    let tmpl : Template := ⟨"index.tmpl", "", "", ""⟩
    let tmpl : Template := { tmpl with leftDelim := "#\x7b", rightDelim := "\x7d" }
    match env.Parse tmpl b with
    | some err => (none, some err)
    | none =>
      let tmpl : Template := { tmpl with text := b }
      let router := buildRouter cfg db tmpl
      (some ⟨":" ++ cfg.Port, router⟩, none)

/-! ## The liveness handler -/

/-- The parts of `http.Request` a handler can read. -/
structure Request where
  method : String
  path : String
  query : String
  header : List (String × String)
  body : String
  deriving DecidableEq, Repr

/-- Go `noWritten = -1`: the size of a gin response writer nothing was written to. -/
def noWritten : Int := -1

/-- The response writer of gin: the status, the number of body bytes written
(`noWritten` before the header is written), the `Content-Type` header, the
status line sent to the client (once the header is written) and the body. -/
structure ResponseWriter where
  status : Nat
  size : Int
  contentType : Option String
  sent : Option Nat
  body : String
  deriving DecidableEq, Repr

/-- Go `gin.Context`: the request and the response writer. -/
structure Context where
  Request : Jqplay.Request
  Writer : Jqplay.ResponseWriter
  deriving DecidableEq, Repr

/-- Go `responseWriter.reset`: status 200 (`defaultStatus`), nothing written. -/
def ResponseWriter.reset : ResponseWriter := ⟨200, noWritten, none, none, ""⟩

/-- The context gin hands to the chain for a new request. -/
def Context.reset (r : Jqplay.Request) : Context := ⟨r, ResponseWriter.reset⟩

/-- Go `w.Written()`. -/
def ResponseWriter.Written (w : ResponseWriter) : Bool := w.size != noWritten

/-- Go `w.WriteHeader(code)`: sets the status unless the header was already
written. -/
def ResponseWriter.WriteHeader (w : ResponseWriter) (code : Nat) : ResponseWriter :=
  if 0 < code ∧ w.status ≠ code then
    if w.Written then w else { w with status := code }
  else w

/-- Go `w.WriteHeaderNow()`: sends the status line if it was not sent yet. -/
def ResponseWriter.WriteHeaderNow (w : ResponseWriter) : ResponseWriter :=
  if w.Written then w else { w with size := 0, sent := some w.status }

/-- Go `w.Write(data)`. -/
def ResponseWriter.Write (w : ResponseWriter) (data : String) : ResponseWriter :=
  let w := w.WriteHeaderNow
  { w with body := w.body ++ data, size := w.size + data.utf8ByteSize }

/-- Go `c.String(code, format)` with no values: `c.Render(code, render.String)`,
which sets the status, sets the plain-text content type unless one is set, and
writes `format`. Statuses without a body do not occur in `server.go`. -/
def Context.String (c : Context) (code : Nat) (format : String) : Context :=
  let w := c.Writer.WriteHeader code
  let w := match w.contentType with
    | some _ => w
    | none => { w with contentType := some "text/plain; charset=utf-8" }
  { c with Writer := w.Write format }

/-- Go `http.StatusOK`. -/
def StatusOK : Nat := 200

/-- The closure registered for `GET /ping` (server.go:91-93):
`func(c *gin.Context) { c.String(http.StatusOK, "pong") }`. -/
def pingFunc (c : Context) : Context := c.String StatusOK "pong"

/-- Serving `GET /ping` for a request: the response writer after the handler
ran on the context of that request. The closure captures nothing, so neither
the configuration nor the database handle is an argument. -/
def servePing (r : Request) : ResponseWriter := (pingFunc (Context.reset r)).Writer

/-! ## The actor group of `Start` -/

/-- The goroutine `go func(a actor) { errors <- a.execute() }(a)` of one actor:
not yet created, created, inside `a.execute()`, or returned with its value sent
on `errors`. -/
inductive ExecStatus where
  | idle
  | spawned
  | running
  | returned (v : Option GoError)
  deriving DecidableEq, Repr

/-- Where `Group.Run` stands: launching the goroutines (next actor `k`),
waiting for the first value on `errors`, calling the interrupt functions (next
actor `k`), receiving the remaining values (`i` as in
`for i := 1; i < cap(errors); i++`), returned. -/
inductive Coord where
  | spawning (k : Nat)
  | waitFirst
  | interrupting (err : Option GoError) (k : Nat)
  | waitRest (err : Option GoError) (i : Nat)
  | done (err : Option GoError)
  deriving DecidableEq, Repr

/-- The listener of the `http.Server`: `net.Listen` not yet called, listening,
or `net.Listen` failed. -/
inductive ListenState where
  | unbound
  | listening
  | failed (e : GoError)
  deriving DecidableEq, Repr

/-- The group of `Start` has two actors: 0 is `run.SignalHandler(ctx, SIGTERM)`,
1 is the listener (`srv.ListenAndServe` / `srv.Shutdown`). -/
def numActors : Nat := 2

/-- State of a run of the group. `returns`, `received` and `interrupts` record
what happened, in order. -/
structure RunState where
  coord : Coord
  sig : ExecStatus
  lis : ExecStatus
  /-- the buffered channel `errors` -/
  errors : List (Option GoError)
  /-- a SIGTERM sits in the channel given to `signal.Notify` -/
  sigChan : Bool
  /-- The `Err()` of the context passed to `Start` -/
  parentErr : Option GoError
  /-- The `Err()` of the cancellable context made by `run.SignalHandler` -/
  ctxErr : Option GoError
  lstate : ListenState
  /-- Whether `srv.Shutdown` was called -/
  inShutdown : Bool
  /-- actors whose `execute` returned, with the value, in order -/
  returns : List (Nat × Option GoError)
  /-- values `Run` received from `errors`, in order -/
  received : List (Option GoError)
  /-- calls of interrupt functions: actor and cause, in order -/
  interrupts : List (Nat × Option GoError)
  /-- timeouts given to `srv.Shutdown` -/
  shutdowns : List Int
  /-- errors logged by "error shutting down server" -/
  logged : List GoError
  deriving DecidableEq, Repr

/-- What can happen during a run. -/
inductive Event where
  /-- Call of `go func` by `Run`: it launches the goroutine of the next actor -/
  | spawn
  /-- the goroutine of actor `i` enters `a.execute()` -/
  | begin (i : Nat)
  /-- the process receives SIGTERM -/
  | sigterm
  /-- the context passed to `Start` is done with error `e` -/
  | parentDone (e : GoError)
  /-- Return of `net.Listen` in `ListenAndServe`, with `r` -/
  | listen (r : Option GoError)
  /-- Return of `a.execute()` of actor `i` with `v`, which is sent on `errors` -/
  | ret (i : Nat) (v : Option GoError)
  /-- Receive by `Run` of a value from `errors` -/
  | recv
  /-- Call by `Run` of the interrupt function of the next actor; `o` is what
  `srv.Shutdown` returns if that actor is the listener -/
  | interrupt (o : Option GoError)
  /-- Return of `Run` -/
  | finish
  deriving DecidableEq, Repr

/-- The group when `g.Run()` is called. -/
def RunState.init : RunState :=
  { coord := .spawning 0, sig := .idle, lis := .idle, errors := [], sigChan := false,
    parentErr := none, ctxErr := none, lstate := .unbound, inShutdown := false,
    returns := [], received := [], interrupts := [], shutdowns := [], logged := [] }

/-- Status of the goroutine of actor `i`. -/
def RunState.status (s : RunState) (i : Nat) : ExecStatus :=
  if i = 0 then s.sig else s.lis

/-- Sets the status of the goroutine of actor `i`. -/
def RunState.setStatus (s : RunState) (i : Nat) (st : ExecStatus) : RunState :=
  if i = 0 then { s with sig := st } else { s with lis := st }

/-- The values with which `execute` of the actor made by `run.SignalHandler`
can return now. Its body is a `select` over the signal channel and the
context: `case sig := <-c: return SignalError` of `sig`, and
`case <-ctx.Done(): return ctx.Err()`. -/
def sigMayReturn (s : RunState) (v : Option GoError) : Bool :=
  (s.sigChan && v == some (.signalError SIGTERM)) ||
  (s.ctxErr.isSome && v == s.ctxErr)

/-- An error of `Accept` that makes `Serve` return: any collaborator error. -/
def isAcceptError : Option GoError → Bool
  | some (.msg _) => true
  | _ => false

/-- The values with which `srv.ListenAndServe()` can return now: the error of
`net.Listen` when it failed; `http.ErrServerClosed` once `Shutdown` was called
(also when the listener is not bound yet); an error of `Accept` while
listening. -/
def lisMayReturn (s : RunState) (v : Option GoError) : Bool :=
  match s.lstate with
  | .failed e => v == some e
  | .listening => (s.inShutdown && v == some .serverClosed) || isAcceptError v
  | .unbound => s.inShutdown && v == some .serverClosed

/-- The next position of `Run` after launching actor `k`. -/
def afterSpawn (k : Nat) : Coord :=
  if k + 1 < numActors then .spawning (k + 1) else .waitFirst

/-- The next position of `Run` after interrupting actor `k`. -/
def afterInterrupt (err : Option GoError) (k : Nat) : Coord :=
  if k + 1 < numActors then .interrupting err (k + 1) else .waitRest err 1

/-- The `Err()` of a context after it is done with `e`: the first cause stays. -/
def doneWith (cur : Option GoError) (e : GoError) : Option GoError :=
  match cur with
  | some c => some c
  | none => some e

/-- The listener after `net.Listen` returned `r`. -/
def listenOutcome : Option GoError → ListenState
  | some e => .failed e
  | none => .listening

/-- The log after `if err := srv.Shutdown(ctx); err != nil` logged the error
(server.go:51-53). -/
def logShutdown (log : List GoError) : Option GoError → List GoError
  | some e => log ++ [e]
  | none => log

/-- The interrupt function of actor `k` called with cause `err`. Actor 0:
`cancel()`. Actor 1 (server.go:47-54): `srv.Shutdown` under a context with
timeout `28*time.Second`; its error, if any, is logged and dropped. -/
def callInterrupt (s : RunState) (k : Nat) (o : Option GoError) : RunState :=
  if k = 0 then
    { s with ctxErr := doneWith s.ctxErr .canceled }
  else
    { s with inShutdown := true,
             shutdowns := s.shutdowns ++ [shutdownTimeout],
             logged := logShutdown s.logged o }

/-- One event of a run; `none` when the event cannot occur in the state.
SIGTERM is an event only while the signal watcher is inside `execute`, where
`signal.Notify` holds; outside it the signal ends the process and no run goes
on. `net.Listen` is called by `ListenAndServe` only, so `listen` needs the
listener's `execute` to be running. A value returned by `execute` is sent on
`errors` in the same event: the channel has room for every actor. -/
def step (s : RunState) : Event → Option RunState
  | .spawn =>
    match s.coord with
    | .spawning k =>
      if k < numActors ∧ s.status k = .idle then
        some { s.setStatus k .spawned with coord := afterSpawn k }
      else none
    | _ => none
  | .begin i =>
    if i < numActors ∧ s.status i = .spawned then some (s.setStatus i .running) else none
  | .sigterm =>
    if s.sig = .running then some { s with sigChan := true } else none
  | .parentDone e =>
    if (e = .canceled ∨ e = .deadlineExceeded) ∧ s.parentErr = none then
      some { s with parentErr := some e, ctxErr := doneWith s.ctxErr e }
    else none
  | .listen r =>
    if s.lis = .running ∧ s.lstate = .unbound then
      some { s with lstate := listenOutcome r }
    else none
  | .ret i v =>
    if i < numActors ∧ s.status i = .running ∧
        (if i = 0 then sigMayReturn s v else lisMayReturn s v) = true then
      some { s.setStatus i (.returned v) with
             errors := s.errors ++ [v], returns := s.returns ++ [(i, v)] }
    else none
  | .recv =>
    match s.coord, s.errors with
    | .waitFirst, v :: rest =>
      some { s with coord := .interrupting v 0, errors := rest, received := s.received ++ [v] }
    | .waitRest err i, v :: rest =>
      if i < numActors then
        some { s with coord := .waitRest err (i + 1), errors := rest,
                      received := s.received ++ [v] }
      else none
    | _, _ => none
  | .interrupt o =>
    match s.coord with
    | .interrupting err k =>
      if k < numActors then
        some { callInterrupt s k o with
               coord := afterInterrupt err k, interrupts := s.interrupts ++ [(k, err)] }
      else none
    | _ => none
  | .finish =>
    match s.coord with
    | .waitRest err i => if numActors ≤ i then some { s with coord := .done err } else none
    | _ => none

/-- A run: the events of a schedule, one after the other. -/
def exec (s : RunState) : List Event → Option RunState
  | [] => some s
  | ev :: rest =>
    match step s ev with
    | some s' => exec s' rest
    | none => none

/-! ## `Server.Start` -/

/-- The calls `Start` makes, in order. -/
inductive Effect where
  | connectDB (url : String)
  | addSignalHandler (sig : Nat)
  | newHTTPServer
  | addListener (addr : String)
  | run
  deriving DecidableEq, Repr

/-- The value `Run` has returned, if it has returned. -/
def Coord.result : Coord → Option (Option GoError)
  | .done err => some err
  | _ => none

/-- What `Start` did: the calls it made, the state of the group if it was run,
and the value it returned (`none` while it has not returned). -/
structure StartResult where
  trace : List Effect
  group : Option RunState
  returned : Option (Option GoError)
  deriving DecidableEq, Repr

/-- Go `func (s *Server) Start(ctx context.Context) error` (server.go:31-57) under
a schedule of the events of the group's run. `Start` has not returned while the
schedule has not led `Run` to its return. The case of a nil server with a nil
error does not occur (`newHTTPServer` never returns it); there `Start` would
not return a value. -/
def Server.Start (env : Env) (s : Server) (sched : List Event) : StartResult :=
  match env.ConnectDB s.Config.DatabaseURL with
  | .error err => ⟨[.connectDB s.Config.DatabaseURL], none, some (some err)⟩
  | .ok db =>
    let pre := [Effect.connectDB s.Config.DatabaseURL, .addSignalHandler SIGTERM, .newHTTPServer]
    match newHTTPServer env s.Config db with
    | (_, some err) => ⟨pre, none, some (some err)⟩
    | (none, none) => ⟨pre, none, none⟩
    | (some srv, none) =>
      let tr := pre ++ [.addListener srv.Addr, .run]
      match exec RunState.init sched with
      | none => ⟨tr, none, none⟩
      | some st => ⟨tr, some st, st.coord.result⟩

/-! ## Vocabulary of the properties -/

/-- The six middleware constructors. -/
def HandlerFunc.isMiddleware : HandlerFunc → Bool
  | .Timeout _ | .LimitContentLength _ | .Secure _ | .RequestID | .Logger | .Recovery => true
  | _ => false

/-- The application handlers: the five `JQHandler` methods and the `/ping`
closure (the static-file handler is not one of them). -/
def HandlerFunc.isApp : HandlerFunc → Bool
  | .handleIndex _ | .handleJqGet _ | .handleJqPost _ | .handleJqSharePost _
  | .handleJqShareGet _ | .pingFunc => true
  | _ => false

/-- The handler a route ends in: the last element of its chain. -/
def Route.handler (r : Route) : Option HandlerFunc := r.handlers.getLast?

/-- The routes registered for a method and a path pattern. -/
def Engine.lookup (e : Engine) (method path : String) : List Route :=
  e.trees.filter (fun r => r.method = method ∧ r.path = path)

/-- The arguments of the `Secure` middleware installed on the router. -/
def Engine.secureModes (e : Engine) : List Bool :=
  e.Handlers.filterMap (fun h => match h with
    | .Secure b => some b
    | _ => none)

/-- The six application routes named by the HTTP surface. -/
def appRoutes : List (String × String) :=
  [("GET", "/"), ("GET", "/jq"), ("POST", "/jq"), ("POST", "/s"), ("GET", "/s/:id"),
   ("GET", "/ping")]

/-- The template `newHTTPServer` hands to the router when the embedded file
holds `b`. -/
def indexTemplate (b : String) : Template := ⟨"index.tmpl", "#\x7b", "\x7d", b⟩

/-- The response of the liveness handler. -/
def pong : ResponseWriter := ⟨200, 4, some "text/plain; charset=utf-8", some 200, "pong"⟩

/-! ## Invariants of a run -/

/-- Counts a goroutine that has returned. -/
def ExecStatus.finished : ExecStatus → Nat
  | .returned _ => 1
  | _ => 0

/-- The interrupt calls `Run` has made when it has interrupted the first `k`
actors with cause `err`. -/
def interruptsUpTo (err : Option GoError) (k : Nat) : List (Nat × Option GoError) :=
  (List.range k).map (fun i => (i, err))

/-- What the position of `Run` says about what it has received and which
interrupt functions it has called. -/
def phaseOK (s : RunState) : Prop :=
  match s.coord with
  | .spawning k =>
    k < numActors ∧ s.received = [] ∧ s.interrupts = [] ∧ (k = 0 → s.sig = .idle) ∧
      s.lis = .idle
  | .waitFirst => s.received = [] ∧ s.interrupts = []
  | .interrupting err k =>
    k < numActors ∧ s.received = [err] ∧ s.interrupts = interruptsUpTo err k
  | .waitRest err i =>
    1 ≤ i ∧ i ≤ numActors ∧ s.received.length = i ∧ s.received.head? = some err ∧
      s.interrupts = interruptsUpTo err numActors
  | .done err =>
    s.received.length = numActors ∧ s.received.head? = some err ∧
      s.interrupts = interruptsUpTo err numActors

/-- The invariant of a run of the group. -/
structure Inv (s : RunState) : Prop where
  phase : phaseOK s
  chan : s.returns.map Prod.snd = s.received ++ s.errors
  count : s.returns.length = s.sig.finished + s.lis.finished
  status : ∀ i v, (i, v) ∈ s.returns → i < numActors ∧ s.status i = .returned v
  ctxKind : ∀ e, s.ctxErr = some e → e = .canceled ∨ e = .deadlineExceeded
  ctxCause : s.ctxErr ≠ none → s.parentErr ≠ none ∨ s.interrupts ≠ []
  sigValue : ∀ v, s.sig = .returned v →
    v = some (.signalError SIGTERM) ∨ v = some .canceled ∨ v = some .deadlineExceeded
  sigFirst : ∀ v, s.returns.head? = some (0, v) → s.parentErr = none →
    v = some (.signalError SIGTERM) ∧ s.sigChan = true
  bound : s.lstate ≠ .unbound → s.lis = .running ∨ ∃ v, s.lis = .returned v
  lisValue : ∀ v, s.lis = .returned v → v ≠ none ∧ ∀ e, s.lstate = .failed e → v = some e
  shut : s.shutdowns = (s.interrupts.filter (fun p => p.1 = 1)).map (fun _ => shutdownTimeout)
  shutFlag : s.inShutdown = true ↔ ∃ c, (1, c) ∈ s.interrupts
  launched : (s.sig = .idle → s.coord = .spawning 0) ∧ (s.lis = .idle → ∃ k, s.coord = .spawning k)

/-- A schedule made of the events of `Run` only, taking no input: the
interrupt outcomes are nil. -/
def runEvents : List Event := [.recv, .interrupt none, .interrupt none, .recv, .finish]

/-- The event with the outcome of `srv.Shutdown` replaced by success. -/
def Event.shutdownSucceeds : Event → Event
  | .interrupt _ => .interrupt none
  | ev => ev

/-- The state without the log of shutdown errors. -/
def RunState.dropLog (s : RunState) : RunState := { s with logged := [] }

/-- Collaborators that all succeed. -/
def envOK : Env := ⟨fun url => .ok ⟨url⟩, fun _ => .ok "<html>", fun _ _ => none⟩

/-- A server on port 3000 in production mode. -/
def srv3000 : Server := New ⟨"3000", "postgres://db", true⟩

/-- A run in which both actors start, the listener binds and serves, SIGTERM
arrives, the signal watcher returns, `Run` interrupts both actors (`Shutdown`
running into its deadline), the listener returns and `Run` returns. -/
def sigtermRun : List Event :=
  [.spawn, .spawn, .begin 0, .begin 1, .listen none, .sigterm,
   .ret 0 (some (.signalError SIGTERM)), .recv, .interrupt none,
   .interrupt (some .deadlineExceeded), .ret 1 (some .serverClosed), .recv, .finish]

/-- The error of a bind on a port in use. -/
def addrInUse : GoError := .msg "listen tcp :3000: bind: address already in use"

/-- A run in which the port cannot be bound: both goroutines are launched, the
listener enters `ListenAndServe`, `net.Listen` fails, the listener returns the
error, `Run` interrupts both actors, the signal watcher starts, sees its
context cancelled and returns, and `Run` returns. -/
def bindFailRun : List Event :=
  [.spawn, .spawn, .begin 1, .listen (some addrInUse), .ret 1 (some addrInUse), .recv,
   .interrupt none, .interrupt none, .begin 0, .ret 0 (some .canceled), .recv, .finish]

/-- The steps of `Run` from the launch of the second goroutine to the calls of
both interrupt functions; `o` is what `srv.Shutdown` returns. -/
def interruptAll (o : Option GoError) : List Event :=
  [.spawn, .recv, .interrupt none, .interrupt o]

/-- The value with which `srv.ListenAndServe()` returns after `net.Listen`
failed or `Shutdown` was called. -/
def lisReturnNow (s : RunState) : Option GoError :=
  match s.lstate with
  | .failed e => some e
  | _ => some .serverClosed

/-- The context of the signal watcher is done once its interrupt function was
called. -/
def ctxDoneOK (s : RunState) : Prop :=
  (∃ c, (0, c) ∈ s.interrupts) → s.ctxErr.isSome = true

/-- The rest of a signal-driven shutdown: the signal watcher returns
`SignalError` of SIGTERM, `Run` receives it and calls both interrupt functions
(`srv.Shutdown` returning `o`), the listener returns `http.ErrServerClosed`,
`Run` receives it and returns. -/
def sigtermTail (o : Option GoError) : List Event :=
  [.ret 0 (some (.signalError SIGTERM)), .recv, .interrupt none, .interrupt o,
   .ret 1 (some .serverClosed), .recv, .finish]

/-- Events that are steps of `Run` or of the goroutine of an actor entering or
leaving `execute`. The others come from outside the group: a signal, the
context passed to `Start`, the outcome of `net.Listen`. -/
def Event.ofGroup : Event → Bool
  | .sigterm => false
  | .parentDone _ => false
  | .listen _ => false
  | _ => true

/-! ## The router built by `newHTTPServer` -/

/-- When `newHTTPServer` returns no error, the file was read, the template
parsed, and the server is the address with the router built from them. -/
theorem newHTTPServer_ok {env : Env} {cfg : Config} {db : DB} {srv : Option HTTPServer}
    (h : newHTTPServer env cfg db = (srv, none)) :
    ∃ b, env.ReadFile "public/index.tmpl" = .ok b ∧
      env.Parse ⟨"index.tmpl", "#\x7b", "\x7d", ""⟩ b = none ∧
      srv = some ⟨":" ++ cfg.Port, buildRouter cfg db (indexTemplate b)⟩ := by
  unfold newHTTPServer at h
  split at h
  · simp at h
  · rename_i b hb
    simp only at h
    split at h
    · simp at h
    · rename_i hp
      refine ⟨b, hb, hp, ?_⟩
      simp only [Prod.mk.injEq, and_true] at h
      exact h.symm

/-- The routes of the router, written out. -/
theorem buildRouter_trees (cfg : Config) (db : DB) (tmpl : Template) :
    (buildRouter cfg db tmpl).trees =
      [ ⟨"GET", "/assets/*filepath", middlewareChain cfg ++ [.staticHandler "/assets"]⟩,
        ⟨"HEAD", "/assets/*filepath", middlewareChain cfg ++ [.staticHandler "/assets"]⟩,
        ⟨"GET", "/", middlewareChain cfg ++ [.handleIndex ⟨cfg, db⟩]⟩,
        ⟨"GET", "/jq", middlewareChain cfg ++ [.handleJqGet ⟨cfg, db⟩]⟩,
        ⟨"POST", "/jq", middlewareChain cfg ++ [.handleJqPost ⟨cfg, db⟩]⟩,
        ⟨"POST", "/s", middlewareChain cfg ++ [.handleJqSharePost ⟨cfg, db⟩]⟩,
        ⟨"GET", "/s/:id", middlewareChain cfg ++ [.handleJqShareGet ⟨cfg, db⟩]⟩,
        ⟨"GET", "/ping", middlewareChain cfg ++ [.pingFunc]⟩ ] := by
  rfl

/-- The group chain of the router is the middleware chain. -/
theorem buildRouter_Handlers (cfg : Config) (db : DB) (tmpl : Template) :
    (buildRouter cfg db tmpl).Handlers = middlewareChain cfg := by
  rfl

/-- C1: for every route registered by newHTTPServer (the six application
routes and the two of the /assets tree), the stored chain is Timeout,
LimitContentLength, Secure, RequestID, Logger, Recovery in that order, each
exactly once, followed by the handler of the route, which is not a middleware;
and the router holds no route when the middleware chain is installed. -/
theorem C1_every_route_behind_middleware (env : Env) (cfg : Config) (db : DB) (srv : HTTPServer)
    (h : newHTTPServer env cfg db = (some srv, none)) :
    (∀ tmpl, (Engine.New.Use (middlewareChain cfg)).trees = [] ∧
      (routerWithMiddleware cfg tmpl).trees = []) ∧
    srv.Handler.trees.map (fun r => (r.method, r.path)) =
      [("GET", "/assets/*filepath"), ("HEAD", "/assets/*filepath")] ++ appRoutes ∧
    ∀ r ∈ srv.Handler.trees, ∃ hf,
      r.handlers = [.Timeout (5 * Second), .LimitContentLength 10, .Secure cfg.IsProd,
                    .RequestID, .Logger, .Recovery, hf] ∧
      hf.isMiddleware = false ∧ r.handler = some hf ∧
      ∀ m ∈ r.handlers, m.isMiddleware = true → r.handlers.count m = 1 := by
  obtain ⟨b, -, -, hsrv⟩ := newHTTPServer_ok h
  simp only [Option.some.injEq] at hsrv
  subst hsrv
  refine ⟨fun tmpl => ⟨rfl, rfl⟩, ?_, ?_⟩
  · simp only [buildRouter_trees]
    rfl
  · intro r hr
    simp only [buildRouter_trees, List.mem_cons, List.mem_singleton, List.not_mem_nil,
      or_false] at hr
    rcases hr with hr | hr | hr | hr | hr | hr | hr | hr <;> subst hr <;>
      refine ⟨_, rfl, rfl, rfl, ?_⟩ <;>
      · intro m hm hmw
        simp only [middlewareChain, requestTimeout, List.cons_append, List.nil_append,
          List.mem_cons, List.mem_singleton, List.not_mem_nil, or_false] at hm
        rcases hm with hm | hm | hm | hm | hm | hm | hm <;> subst hm <;>
          first
          | (simp [HandlerFunc.isMiddleware] at hmw; done)
          | simp [middlewareChain, requestTimeout, List.count_cons]

/-- The chains of the router built for port 3000 in production mode. -/
theorem C1_every_route_behind_middleware_witness :
    newHTTPServer ⟨fun _ => .ok ⟨"db"⟩, fun _ => .ok "<html>", fun _ _ => none⟩
        ⟨"3000", "postgres://", true⟩ ⟨"db"⟩ =
      (some ⟨":3000", buildRouter ⟨"3000", "postgres://", true⟩ ⟨"db"⟩ (indexTemplate "<html>")⟩,
        none) ∧
    ∀ r ∈ (buildRouter ⟨"3000", "postgres://", true⟩ ⟨"db"⟩ (indexTemplate "<html>")).trees,
      ∃ hf, r.handlers = [.Timeout (5 * Second), .LimitContentLength 10, .Secure true,
                    .RequestID, .Logger, .Recovery, hf] ∧
      hf.isMiddleware = false ∧ r.handler = some hf ∧
      ∀ m ∈ r.handlers, m.isMiddleware = true → r.handlers.count m = 1 :=
  ⟨rfl, (C1_every_route_behind_middleware
    ⟨fun _ => .ok ⟨"db"⟩, fun _ => .ok "<html>", fun _ _ => none⟩
    ⟨"3000", "postgres://", true⟩ ⟨"db"⟩ _ rfl).2.2⟩

/-- C7: the route table of newHTTPServer binds a (method, path pattern) pair to
an application handler exactly for GET /, GET /jq, POST /jq, POST /s,
GET /s/:id and GET /ping; each of the six is registered exactly once, with the
handler named in the source; GET /jq and POST /jq have different handlers, and
so have POST /s and GET /s/:id. -/
theorem C7_route_table (env : Env) (cfg : Config) (db : DB) (srv : HTTPServer)
    (h : newHTTPServer env cfg db = (some srv, none)) :
    (∀ m p, (∃ r ∈ srv.Handler.trees, r.method = m ∧ r.path = p ∧
        ∃ hf, r.handler = some hf ∧ hf.isApp = true) ↔ (m, p) ∈ appRoutes) ∧
    (∀ mp ∈ appRoutes, (srv.Handler.lookup mp.1 mp.2).length = 1) ∧
    (srv.Handler.lookup "GET" "/").map Route.handler = [some (.handleIndex ⟨cfg, db⟩)] ∧
    (srv.Handler.lookup "GET" "/jq").map Route.handler = [some (.handleJqGet ⟨cfg, db⟩)] ∧
    (srv.Handler.lookup "POST" "/jq").map Route.handler = [some (.handleJqPost ⟨cfg, db⟩)] ∧
    (srv.Handler.lookup "POST" "/s").map Route.handler =
      [some (.handleJqSharePost ⟨cfg, db⟩)] ∧
    (srv.Handler.lookup "GET" "/s/:id").map Route.handler =
      [some (.handleJqShareGet ⟨cfg, db⟩)] ∧
    (srv.Handler.lookup "GET" "/ping").map Route.handler = [some .pingFunc] ∧
    (srv.Handler.lookup "GET" "/jq").map Route.handler ≠
      (srv.Handler.lookup "POST" "/jq").map Route.handler ∧
    (srv.Handler.lookup "POST" "/s").map Route.handler ≠
      (srv.Handler.lookup "GET" "/s/:id").map Route.handler := by
  obtain ⟨b, -, -, hsrv⟩ := newHTTPServer_ok h
  simp only [Option.some.injEq] at hsrv
  subst hsrv
  have hl : ∀ m p, (buildRouter cfg db (indexTemplate b)).lookup m p =
      (buildRouter cfg db (indexTemplate b)).trees.filter
        (fun r => r.method = m ∧ r.path = p) := fun _ _ => rfl
  refine ⟨?_, ?_, ?_, ?_, ?_, ?_, ?_, ?_, ?_, ?_⟩
  · intro m p
    simp only [buildRouter_trees, appRoutes, List.mem_cons, List.mem_singleton,
      List.not_mem_nil, or_false, Prod.mk.injEq]
    constructor
    · rintro ⟨r, hr, rfl, rfl, hf, hh, ha⟩
      rcases hr with hr | hr | hr | hr | hr | hr | hr | hr <;> subst hr <;>
        simp [Route.handler, middlewareChain] at hh <;> subst hh <;>
        simp [HandlerFunc.isApp] at ha ⊢
    · rintro (⟨rfl, rfl⟩ | ⟨rfl, rfl⟩ | ⟨rfl, rfl⟩ | ⟨rfl, rfl⟩ | ⟨rfl, rfl⟩ | ⟨rfl, rfl⟩)
      · exact ⟨⟨"GET", "/", middlewareChain cfg ++ [HandlerFunc.handleIndex ⟨cfg, db⟩]⟩, by simp, rfl, rfl,
          HandlerFunc.handleIndex ⟨cfg, db⟩, rfl, rfl⟩
      · exact ⟨⟨"GET", "/jq", middlewareChain cfg ++ [HandlerFunc.handleJqGet ⟨cfg, db⟩]⟩, by simp, rfl, rfl,
          HandlerFunc.handleJqGet ⟨cfg, db⟩, rfl, rfl⟩
      · exact ⟨⟨"POST", "/jq", middlewareChain cfg ++ [HandlerFunc.handleJqPost ⟨cfg, db⟩]⟩, by simp, rfl, rfl,
          HandlerFunc.handleJqPost ⟨cfg, db⟩, rfl, rfl⟩
      · exact ⟨⟨"POST", "/s", middlewareChain cfg ++ [HandlerFunc.handleJqSharePost ⟨cfg, db⟩]⟩, by simp, rfl, rfl,
          HandlerFunc.handleJqSharePost ⟨cfg, db⟩, rfl, rfl⟩
      · exact ⟨⟨"GET", "/s/:id", middlewareChain cfg ++ [HandlerFunc.handleJqShareGet ⟨cfg, db⟩]⟩, by simp, rfl, rfl,
          HandlerFunc.handleJqShareGet ⟨cfg, db⟩, rfl, rfl⟩
      · exact ⟨⟨"GET", "/ping", middlewareChain cfg ++ [HandlerFunc.pingFunc]⟩, by simp, rfl, rfl,
          HandlerFunc.pingFunc, rfl, rfl⟩
  · intro mp hmp
    simp only [appRoutes, List.mem_cons, List.mem_singleton, List.not_mem_nil, or_false] at hmp
    rcases hmp with rfl | rfl | rfl | rfl | rfl | rfl <;>
      simp only [hl, buildRouter_trees] <;> rfl
  · simp only [hl, buildRouter_trees]; rfl
  · simp only [hl, buildRouter_trees]; rfl
  · simp only [hl, buildRouter_trees]; rfl
  · simp only [hl, buildRouter_trees]; rfl
  · simp only [hl, buildRouter_trees]; rfl
  · simp only [hl, buildRouter_trees]; rfl
  · have h1 : ((buildRouter cfg db (indexTemplate b)).lookup "GET" "/jq").map Route.handler =
        [some (.handleJqGet ⟨cfg, db⟩)] := by simp only [hl, buildRouter_trees]; rfl
    have h2 : ((buildRouter cfg db (indexTemplate b)).lookup "POST" "/jq").map Route.handler =
        [some (.handleJqPost ⟨cfg, db⟩)] := by simp only [hl, buildRouter_trees]; rfl
    rw [h1, h2]; simp
  · have h1 : ((buildRouter cfg db (indexTemplate b)).lookup "POST" "/s").map Route.handler =
        [some (.handleJqSharePost ⟨cfg, db⟩)] := by simp only [hl, buildRouter_trees]; rfl
    have h2 : ((buildRouter cfg db (indexTemplate b)).lookup "GET" "/s/:id").map Route.handler =
        [some (.handleJqShareGet ⟨cfg, db⟩)] := by simp only [hl, buildRouter_trees]; rfl
    rw [h1, h2]; simp

/-- A configuration at which the route table of C7 is evaluated. -/
theorem C7_route_table_witness :
    newHTTPServer ⟨fun _ => .ok ⟨"db"⟩, fun _ => .ok "<html>", fun _ _ => none⟩
        ⟨"8080", "postgres://", false⟩ ⟨"db"⟩ =
      (some ⟨":8080", buildRouter ⟨"8080", "postgres://", false⟩ ⟨"db"⟩ (indexTemplate "<html>")⟩,
        none) ∧
    ∀ mp ∈ appRoutes,
      ((buildRouter ⟨"8080", "postgres://", false⟩ ⟨"db"⟩ (indexTemplate "<html>")).lookup
        mp.1 mp.2).length = 1 :=
  ⟨rfl, (C7_route_table
    ⟨fun _ => .ok ⟨"db"⟩, fun _ => .ok "<html>", fun _ _ => none⟩
    ⟨"8080", "postgres://", false⟩ ⟨"db"⟩ _ rfl).2.1⟩

/-- The listen address determines the port. -/
theorem addr_injective {p q : String} (h : ":" ++ p = ":" ++ q) : p = q := by
  have hd := congrArg String.data h
  simp only [String.data_append, List.append_cancel_left_eq] at hd
  exact String.ext hd

/-- C8: the liveness handler is constant. The handler registered for GET /ping
is the same closure for every configuration and database handle, and it takes
neither as an argument. For every request the handler run on
the fresh context of that request leaves status 200 and body "pong"; for every
list of requests served one after the other every response is that one; on any
context whose response is not yet written it sends status 200 and writes
"pong", and leaves the request untouched. -/
theorem C8_ping_constant :
    (∀ (env : Env) (cfg : Config) (db : DB) (srv : HTTPServer),
      newHTTPServer env cfg db = (some srv, none) →
      (srv.Handler.lookup "GET" "/ping").map Route.handler = [some HandlerFunc.pingFunc]) ∧
    (∀ r : Request, servePing r = pong) ∧
    (∀ reqs : List Request, reqs.map servePing = List.replicate reqs.length pong) ∧
    (∀ r₁ r₂ : Request, servePing r₁ = servePing r₂) ∧
    pong.status = 200 ∧ pong.sent = some StatusOK ∧ pong.body = "pong" ∧
    (∀ c : Context, c.Writer.Written = false →
      (pingFunc c).Writer.status = 200 ∧ (pingFunc c).Writer.sent = some 200 ∧
      (pingFunc c).Writer.body = c.Writer.body ++ "pong" ∧
      (pingFunc c).Request = c.Request) := by
  have h1 : ∀ r : Request, servePing r = pong := fun _ => rfl
  refine ⟨?_, h1, ?_, ?_, rfl, rfl, rfl, ?_⟩
  · intro env cfg db srv h
    obtain ⟨b, -, -, hsrv⟩ := newHTTPServer_ok h
    simp only [Option.some.injEq] at hsrv
    subst hsrv
    simp only [Engine.lookup, buildRouter_trees]
    rfl
  · intro reqs
    induction reqs with
    | nil => rfl
    | cons r rs ih => simp only [List.map_cons, List.length_cons, List.replicate_succ, ih, h1]
  · intro r₁ r₂
    rw [h1, h1]
  · intro c hc
    have hw : ∀ w : ResponseWriter, w.Written = false →
        (w.WriteHeader StatusOK).status = 200 ∧ (w.WriteHeader StatusOK).Written = false ∧
        (w.WriteHeader StatusOK).body = w.body := by
      intro w hw
      unfold ResponseWriter.WriteHeader
      simp only [StatusOK]
      split_ifs <;> simp_all [ResponseWriter.Written]
    obtain ⟨hs, hwr, hb⟩ := hw c.Writer hc
    have hnw : ∀ w : ResponseWriter, w.Written = false → ∀ d,
        (w.Write d).status = w.status ∧ (w.Write d).sent = some w.status ∧
        (w.Write d).body = w.body ++ d := by
      intro w hw d
      simp [ResponseWriter.Write, ResponseWriter.WriteHeaderNow, hw]
    have hreq : (pingFunc c).Request = c.Request := rfl
    refine ⟨?_, ?_, ?_, hreq⟩ <;> unfold pingFunc Context.String <;> simp only <;> split
    · rw [(hnw _ hwr "pong").1, hs]
    · have hwr' : ({ (c.Writer.WriteHeader StatusOK) with
          contentType := some "text/plain; charset=utf-8" } : ResponseWriter).Written = false := by
        simpa [ResponseWriter.Written] using hwr
      rw [(hnw _ hwr' "pong").1]
      exact hs
    · rw [(hnw _ hwr "pong").2.1, hs]
    · have hwr' : ({ (c.Writer.WriteHeader StatusOK) with
          contentType := some "text/plain; charset=utf-8" } : ResponseWriter).Written = false := by
        simpa [ResponseWriter.Written] using hwr
      rw [(hnw _ hwr' "pong").2.1]
      simp only [hs]
    · rw [(hnw _ hwr "pong").2.2, hb]
    · have hwr' : ({ (c.Writer.WriteHeader StatusOK) with
          contentType := some "text/plain; charset=utf-8" } : ResponseWriter).Written = false := by
        simpa [ResponseWriter.Written] using hwr
      rw [(hnw _ hwr' "pong").2.2]
      simp only [hb]

/-- The handler on a context on which a middleware already set a content type
and a status. -/
theorem C8_ping_constant_witness :
    (⟨⟨"GET", "/ping", "x=1", [("Accept", "*/*")], "ignored"⟩,
      ⟨404, noWritten, some "application/json", none, ""⟩⟩ : Context).Writer.Written = false ∧
    (pingFunc ⟨⟨"GET", "/ping", "x=1", [("Accept", "*/*")], "ignored"⟩,
      ⟨404, noWritten, some "application/json", none, ""⟩⟩).Writer.status = 200 :=
  ⟨by decide, (C8_ping_constant.2.2.2.2.2.2.2 _ (by decide)).1⟩

/-- C9: when newHTTPServer succeeds the address of the server is ":" followed
by the configured port, its handler is the router built in that call (from the
configuration, the database handle and the template just parsed), and Secure is
installed with exactly cfg.IsProd(); two configurations with the same port and
the same production flag give the same address and the same security mode, and
different ports give different addresses. -/
theorem C9_address_and_security_mode (env₁ env₂ : Env) (cfg₁ cfg₂ : Config) (db₁ db₂ : DB)
    (srv₁ srv₂ : HTTPServer)
    (h₁ : newHTTPServer env₁ cfg₁ db₁ = (some srv₁, none))
    (h₂ : newHTTPServer env₂ cfg₂ db₂ = (some srv₂, none)) :
    srv₁.Addr = ":" ++ cfg₁.Port ∧
    (∃ b, env₁.ReadFile "public/index.tmpl" = .ok b ∧
      srv₁.Handler = buildRouter cfg₁ db₁ (indexTemplate b)) ∧
    srv₁.Handler.secureModes = [cfg₁.IsProd] ∧
    (∀ h ∈ srv₁.Handler.trees, HandlerFunc.Secure cfg₁.IsProd ∈ h.handlers ∧
      ∀ b, HandlerFunc.Secure b ∈ h.handlers → b = cfg₁.IsProd) ∧
    (cfg₁.Port = cfg₂.Port → cfg₁.IsProd = cfg₂.IsProd →
      srv₁.Addr = srv₂.Addr ∧ srv₁.Handler.secureModes = srv₂.Handler.secureModes) ∧
    (cfg₁.Port ≠ cfg₂.Port → srv₁.Addr ≠ srv₂.Addr) := by
  obtain ⟨b₁, hb₁, -, hs₁⟩ := newHTTPServer_ok h₁
  obtain ⟨b₂, -, -, hs₂⟩ := newHTTPServer_ok h₂
  simp only [Option.some.injEq] at hs₁ hs₂
  subst hs₁ hs₂
  have hm : ∀ (cfg : Config) (db : DB) (t : Template),
      (buildRouter cfg db t).secureModes = [cfg.IsProd] := fun _ _ _ => rfl
  refine ⟨rfl, ⟨b₁, hb₁, rfl⟩, hm _ _ _, ?_, ?_, ?_⟩
  · intro r hr
    simp only [buildRouter_trees, List.mem_cons, List.mem_singleton, List.not_mem_nil,
      or_false] at hr
    rcases hr with hr | hr | hr | hr | hr | hr | hr | hr <;> subst hr <;>
      simp [middlewareChain]
  · intro hp hm'
    simp only [hm]
    rw [hp, hm']
    exact ⟨rfl, rfl⟩
  · intro hp heq
    exact hp (addr_injective heq)

/-- Two configurations that differ in port and mode. -/
theorem C9_address_and_security_mode_witness :
    (⟨":3000", buildRouter ⟨"3000", "a", true⟩ ⟨"db"⟩ (indexTemplate "t")⟩ : HTTPServer).Addr ≠
      (⟨":8080", buildRouter ⟨"8080", "b", false⟩ ⟨"db"⟩ (indexTemplate "t")⟩ : HTTPServer).Addr :=
  (C9_address_and_security_mode
    ⟨fun _ => .ok ⟨"db"⟩, fun _ => .ok "t", fun _ _ => none⟩
    ⟨fun _ => .ok ⟨"db"⟩, fun _ => .ok "t", fun _ _ => none⟩
    ⟨"3000", "a", true⟩ ⟨"8080", "b", false⟩ ⟨"db"⟩ ⟨"db"⟩ _ _ rfl rfl).2.2.2.2.2 (by decide)

/-- C10: the per-request timeout installed in the pipeline (5 s) is strictly
smaller than the timeout given to Shutdown by the listener's interrupt (28 s);
so a request accepted no later than the instant t0 at which the interrupt
begins, and ending no later than its own deadline, ends strictly before
t0 + 28 s. -/
theorem C10_timeout_within_grace (start finish t0 : Int) (cfg : Config) (s : RunState)
    (o : Option GoError)
    (haccept : start ≤ t0) (hend : finish ≤ start + requestTimeout) :
    requestTimeout = 5 * Second ∧ shutdownTimeout = 28 * Second ∧
    HandlerFunc.Timeout requestTimeout ∈ middlewareChain cfg ∧
    (callInterrupt s 1 o).shutdowns = s.shutdowns ++ [shutdownTimeout] ∧
    requestTimeout < shutdownTimeout ∧
    start + requestTimeout ≤ t0 + requestTimeout ∧
    t0 + requestTimeout < t0 + shutdownTimeout ∧
    finish < t0 + shutdownTimeout := by
  have h5 : requestTimeout = 5000000000 := by decide
  have h28 : shutdownTimeout = 28000000000 := by decide
  refine ⟨rfl, rfl, by simp [middlewareChain], rfl, ?_, ?_, ?_, ?_⟩ <;> omega

/-- A request accepted one second before the interrupt and using its whole
timeout. -/
theorem C10_timeout_within_grace_witness :
    (6 * Second : Int) < 2 * Second + shutdownTimeout :=
  (C10_timeout_within_grace (1 * Second) (6 * Second) (2 * Second)
    ⟨"3000", "a", true⟩ RunState.init none (by decide) (by decide)).2.2.2.2.2.2.2

/-! ## Startup failures of `Start` -/

/-- The error of `newHTTPServer` is the read error or the parse error, and
comes with a nil server. -/
theorem newHTTPServer_error {env : Env} {cfg : Config} {db : DB} {e : GoError} :
    (newHTTPServer env cfg db).2 = some e ↔
      env.ReadFile "public/index.tmpl" = .error e ∨
      ∃ b, env.ReadFile "public/index.tmpl" = .ok b ∧
        env.Parse ⟨"index.tmpl", "#\x7b", "\x7d", ""⟩ b = some e := by
  unfold newHTTPServer
  split
  · rename_i err hr
    simp [hr]
  · rename_i b hb
    simp only [hb]
    split
    · rename_i err hp
      simp [hp]
    · rename_i hp
      simp [hp]

/-- With an error `newHTTPServer` returns a nil server. -/
theorem newHTTPServer_error_nil {env : Env} {cfg : Config} {db : DB} {e : GoError}
    (h : (newHTTPServer env cfg db).2 = some e) : newHTTPServer env cfg db = (none, some e) := by
  unfold newHTTPServer at h ⊢
  split
  · rename_i err hr
    simp only [hr] at h
    simp only [Option.some.injEq] at h
    rw [h]
  · rename_i b hb
    simp only [hb] at h ⊢
    split
    · rename_i err hp
      simp only [hp, Option.some.injEq] at h
      rw [h]
    · rename_i hp
      simp [hp] at h

/-- C4: if ConnectDB fails with e, Start returns e having made no other call
(no template loaded, no router built, no actor run); if newHTTPServer fails
with e (the embedded template cannot be read, or cannot be parsed), it returns
a nil server with e and Start returns e without adding the listener or running
the group; Start runs the group only when both steps succeeded. This holds for
every schedule of the group's events. -/
theorem C4_startup_failures (env : Env) (s : Server) (sched : List Event) :
    (∀ e, env.ConnectDB s.Config.DatabaseURL = .error e →
      s.Start env sched = ⟨[.connectDB s.Config.DatabaseURL], none, some (some e)⟩) ∧
    (∀ db e, (env.ReadFile "public/index.tmpl" = .error e ∨
        ∃ b, env.ReadFile "public/index.tmpl" = .ok b ∧
          env.Parse ⟨"index.tmpl", "#\x7b", "\x7d", ""⟩ b = some e) →
      newHTTPServer env s.Config db = (none, some e)) ∧
    (∀ db e, env.ConnectDB s.Config.DatabaseURL = .ok db →
      (newHTTPServer env s.Config db).2 = some e →
      newHTTPServer env s.Config db = (none, some e) ∧
      s.Start env sched =
        ⟨[.connectDB s.Config.DatabaseURL, .addSignalHandler SIGTERM, .newHTTPServer],
          none, some (some e)⟩) ∧
    ((Effect.run ∈ (s.Start env sched).trace ∨ (s.Start env sched).group ≠ none) →
      ∃ db srv, env.ConnectDB s.Config.DatabaseURL = .ok db ∧
        newHTTPServer env s.Config db = (some srv, none)) := by
  refine ⟨?_, ?_, ?_, ?_⟩
  · intro e he
    simp only [Server.Start, he]
  · intro db e he
    exact newHTTPServer_error_nil (newHTTPServer_error.mpr he)
  · intro db e hdb he
    have hn := newHTTPServer_error_nil he
    refine ⟨hn, ?_⟩
    simp only [Server.Start, hdb, hn]
  · intro hrun
    unfold Server.Start at hrun
    split at hrun
    · simp at hrun
    · rename_i db hdb
      simp only at hrun
      split at hrun
      · simp at hrun
      · simp at hrun
      · rename_i srv hsrv
        exact ⟨db, srv, hdb, hsrv⟩

/-- A database that refuses the connection and a template that does not
parse. -/
theorem C4_startup_failures_witness :
    (Server.Start ⟨fun _ => .error (.msg "connection refused"), fun _ => .ok "t",
        fun _ _ => none⟩ (New ⟨"3000", "postgres://", true⟩) [.spawn, .spawn]).returned =
      some (some (.msg "connection refused")) ∧
    (Server.Start ⟨fun _ => .ok ⟨"db"⟩, fun _ => .ok "#\x7b",
        fun _ _ => some (.msg "template: unclosed action")⟩
        (New ⟨"3000", "postgres://", true⟩) [.spawn, .spawn]).returned =
      some (some (.msg "template: unclosed action")) :=
  ⟨congrArg StartResult.returned
      ((C4_startup_failures ⟨fun _ => .error (.msg "connection refused"), fun _ => .ok "t",
        fun _ _ => none⟩ (New ⟨"3000", "postgres://", true⟩) [.spawn, .spawn]).1 _ rfl),
   congrArg StartResult.returned
      ((C4_startup_failures ⟨fun _ => .ok ⟨"db"⟩, fun _ => .ok "#\x7b",
        fun _ _ => some (.msg "template: unclosed action")⟩
        (New ⟨"3000", "postgres://", true⟩) [.spawn, .spawn]).2.2.1 ⟨"db"⟩ _ rfl rfl).2⟩

/-! ## The events of a run, one by one -/

/-- What `spawn` does. -/
theorem step_spawn_inv {s s' : RunState} (h : step s .spawn = some s') :
    (s.coord = .spawning 0 ∧ s.sig = .idle ∧
      s' = { s with sig := .spawned, coord := .spawning 1 }) ∨
    (s.coord = .spawning 1 ∧ s.lis = .idle ∧
      s' = { s with lis := .spawned, coord := .waitFirst }) := by
  simp only [step] at h
  split at h
  · rename_i k hk
    split at h
    · rename_i hg
      obtain ⟨hlt, hst⟩ := hg
      simp only [Option.some.injEq] at h
      have hk2 : k = 0 ∨ k = 1 := by simp only [numActors] at hlt; omega
      rcases hk2 with rfl | rfl
      · left
        refine ⟨hk, by simpa [RunState.status] using hst, ?_⟩
        rw [← h]; rfl
      · right
        refine ⟨hk, by simpa [RunState.status] using hst, ?_⟩
        rw [← h]; rfl
    · simp at h
  · simp at h

/-- What `begin i` does. -/
theorem step_begin_inv {s s' : RunState} {i : Nat} (h : step s (.begin i) = some s') :
    (i = 0 ∧ s.sig = .spawned ∧ s' = { s with sig := .running }) ∨
    (i = 1 ∧ s.lis = .spawned ∧ s' = { s with lis := .running }) := by
  simp only [step] at h
  split at h
  · rename_i hg
    obtain ⟨hlt, hst⟩ := hg
    simp only [Option.some.injEq] at h
    have hk2 : i = 0 ∨ i = 1 := by simp only [numActors] at hlt; omega
    rcases hk2 with rfl | rfl
    · left
      refine ⟨rfl, by simpa [RunState.status] using hst, ?_⟩
      rw [← h]; rfl
    · right
      refine ⟨rfl, by simpa [RunState.status] using hst, ?_⟩
      rw [← h]; rfl
  · simp at h

/-- What `sigterm` does. -/
theorem step_sigterm_inv {s s' : RunState} (h : step s .sigterm = some s') :
    s.sig = .running ∧ s' = { s with sigChan := true } := by
  simp only [step] at h
  split at h
  · rename_i hg
    simp only [Option.some.injEq] at h
    exact ⟨hg, h.symm⟩
  · simp at h

/-- What `parentDone e` does. -/
theorem step_parentDone_inv {s s' : RunState} {e : GoError}
    (h : step s (.parentDone e) = some s') :
    (e = .canceled ∨ e = .deadlineExceeded) ∧ s.parentErr = none ∧
    s' = { s with parentErr := some e, ctxErr := doneWith s.ctxErr e } := by
  simp only [step] at h
  split at h
  · rename_i hg
    simp only [Option.some.injEq] at h
    exact ⟨hg.1, hg.2, h.symm⟩
  · simp at h

/-- What `listen r` does. -/
theorem step_listen_inv {s s' : RunState} {r : Option GoError}
    (h : step s (.listen r) = some s') :
    s.lis = .running ∧ s.lstate = .unbound ∧
    s' = { s with lstate := listenOutcome r } := by
  simp only [step] at h
  by_cases hg : s.lis = .running ∧ s.lstate = .unbound
  · rw [if_pos hg] at h
    simp only [Option.some.injEq] at h
    exact ⟨hg.1, hg.2, h.symm⟩
  · rw [if_neg hg] at h
    simp at h

/-- What `ret i v` does. -/
theorem step_ret_inv {s s' : RunState} {i : Nat} {v : Option GoError}
    (h : step s (.ret i v) = some s') :
    (i = 0 ∧ s.sig = .running ∧ sigMayReturn s v = true ∧
      s' = { s with sig := .returned v, errors := s.errors ++ [v],
                    returns := s.returns ++ [(0, v)] }) ∨
    (i = 1 ∧ s.lis = .running ∧ lisMayReturn s v = true ∧
      s' = { s with lis := .returned v, errors := s.errors ++ [v],
                    returns := s.returns ++ [(1, v)] }) := by
  simp only [step] at h
  by_cases hg : i < numActors ∧ s.status i = .running ∧
      (if i = 0 then sigMayReturn s v else lisMayReturn s v) = true
  · rw [if_pos hg] at h
    obtain ⟨hlt, hst, hm⟩ := hg
    simp only [Option.some.injEq] at h
    have hk2 : i = 0 ∨ i = 1 := by simp only [numActors] at hlt; omega
    rcases hk2 with rfl | rfl
    · left
      refine ⟨rfl, by simpa [RunState.status] using hst, by simpa using hm, ?_⟩
      rw [← h]; rfl
    · right
      refine ⟨rfl, by simpa [RunState.status] using hst, by simpa using hm, ?_⟩
      rw [← h]; rfl
  · rw [if_neg hg] at h
    simp at h

/-- What `recv` does. -/
theorem step_recv_inv {s s' : RunState} (h : step s .recv = some s') :
    (∃ v rest, s.coord = .waitFirst ∧ s.errors = v :: rest ∧
      s' = { s with coord := .interrupting v 0, errors := rest,
                    received := s.received ++ [v] }) ∨
    (∃ err i v rest, s.coord = .waitRest err i ∧ i < numActors ∧ s.errors = v :: rest ∧
      s' = { s with coord := .waitRest err (i + 1), errors := rest,
                    received := s.received ++ [v] }) := by
  simp only [step] at h
  split at h
  · rename_i v rest hc he
    simp only [Option.some.injEq] at h
    exact Or.inl ⟨v, rest, hc, he, h.symm⟩
  · rename_i err i v rest hc he
    split at h
    · rename_i hlt
      simp only [Option.some.injEq] at h
      exact Or.inr ⟨err, i, v, rest, hc, hlt, he, h.symm⟩
    · simp at h
  · simp at h

/-- What `interrupt o` does. -/
theorem step_interrupt_inv {s s' : RunState} {o : Option GoError}
    (h : step s (.interrupt o) = some s') :
    (∃ err, s.coord = .interrupting err 0 ∧
      s' = { s with ctxErr := doneWith s.ctxErr .canceled,
                    coord := .interrupting err 1,
                    interrupts := s.interrupts ++ [(0, err)] }) ∨
    (∃ err, s.coord = .interrupting err 1 ∧
      s' = { s with inShutdown := true,
                    shutdowns := s.shutdowns ++ [shutdownTimeout],
                    logged := logShutdown s.logged o,
                    coord := .waitRest err 1,
                    interrupts := s.interrupts ++ [(1, err)] }) := by
  simp only [step] at h
  split at h
  · rename_i err k hk
    split at h
    · rename_i hlt
      simp only [Option.some.injEq] at h
      have hk2 : k = 0 ∨ k = 1 := by simp only [numActors] at hlt; omega
      rcases hk2 with rfl | rfl
      · left
        refine ⟨err, hk, ?_⟩
        rw [← h]; rfl
      · right
        refine ⟨err, hk, ?_⟩
        rw [← h]; rfl
    · simp at h
  · simp at h

/-- What `finish` does. -/
theorem step_finish_inv {s s' : RunState} (h : step s .finish = some s') :
    ∃ err i, s.coord = .waitRest err i ∧ numActors ≤ i ∧ s' = { s with coord := .done err } := by
  simp only [step] at h
  split at h
  · rename_i err i hc
    split at h
    · rename_i hle
      simp only [Option.some.injEq] at h
      exact ⟨err, i, hc, hle, h.symm⟩
    · simp at h
  · simp at h

/-- A property that holds at the start and is kept by every event holds after
every schedule. -/
theorem exec_induction {P : RunState → Prop}
    (hstep : ∀ s s' ev, P s → step s ev = some s' → P s')
    {s s' : RunState} {sched : List Event} (h0 : P s) (h : exec s sched = some s') : P s' := by
  induction sched generalizing s with
  | nil =>
    simp only [exec, Option.some.injEq] at h
    exact h ▸ h0
  | cons ev rest ih =>
    simp only [exec] at h
    split at h
    · rename_i s₁ hs₁
      exact ih (hstep _ _ _ h0 hs₁) h
    · simp at h

/-! ## The invariant holds in every run -/

/-- The invariant holds when `Run` is called. -/
theorem inv_init : Inv RunState.init := by
  constructor <;> simp [RunState.init, phaseOK, numActors, ExecStatus.finished]

/-- No interrupt function is called before `Run` has received a value. -/
theorem phaseOK_interrupts {s : RunState} (h : phaseOK s) (hi : s.interrupts ≠ []) :
    s.received ≠ [] := by
  unfold phaseOK at h
  split at h
  · exact absurd h.2.2.1 hi
  · exact absurd h.2 hi
  · rw [h.2.1]; simp
  · intro hr
    have := h.2.2.1
    rw [hr] at this
    simp only [List.length_nil] at this
    omega
  · intro hr
    have := h.1
    rw [hr] at this
    simp [numActors] at this

/-- The invariant is kept when only a goroutine of an actor that has not
returned changes status, to a status other than returned. -/
theorem inv_step_spawn {s s' : RunState} (h : Inv s) (hs : step s .spawn = some s') :
    Inv s' := by
  obtain ⟨hphase, hchan, hcount, hstatus, hkind, hcause, hsigv, hsigf, hbound, hlisv, hshut,
    hflag, hlaunch⟩ := h
  rcases step_spawn_inv hs with ⟨hc, hi, rfl⟩ | ⟨hc, hi, rfl⟩
  · constructor <;> dsimp only <;> first | assumption | skip
    case launched => exact ⟨fun h0 => by simp at h0, fun _ => ⟨1, rfl⟩⟩
    case phase =>
      unfold phaseOK at hphase ⊢
      rw [hc] at hphase
      dsimp only at hphase ⊢
      exact ⟨by decide, hphase.2.1, hphase.2.2.1, by simp, hphase.2.2.2.2⟩
    case count => simpa [hi, ExecStatus.finished] using hcount
    case status =>
      intro i v hm
      obtain ⟨hlt, hst⟩ := hstatus i v hm
      refine ⟨hlt, ?_⟩
      simp only [RunState.status] at hst ⊢
      split_ifs at hst ⊢
      · rw [hi] at hst; simp at hst
      · exact hst
    case sigValue => intro v hv; simp at hv
  · constructor <;> dsimp only <;> first | assumption | skip
    case launched =>
      refine ⟨fun h0 => ?_, fun h0 => by simp at h0⟩
      have := hlaunch.1 h0; rw [hc] at this; simp at this
    case phase =>
      unfold phaseOK at hphase ⊢
      rw [hc] at hphase
      dsimp only at hphase ⊢
      exact ⟨hphase.2.1, hphase.2.2.1⟩
    case count => simpa [hi, ExecStatus.finished] using hcount
    case status =>
      intro i v hm
      obtain ⟨hlt, hst⟩ := hstatus i v hm
      refine ⟨hlt, ?_⟩
      simp only [RunState.status] at hst ⊢
      split_ifs at hst ⊢
      · exact hst
      · rw [hi] at hst; simp at hst
    case bound =>
      intro hu
      rcases hbound hu with h | ⟨v, h⟩ <;> rw [hi] at h <;> simp at h
    case lisValue => intro v hv; simp at hv

/-- The invariant is kept when a goroutine enters `execute`. -/
theorem inv_step_begin {s s' : RunState} {i : Nat} (h : Inv s)
    (hs : step s (.begin i) = some s') : Inv s' := by
  obtain ⟨hphase, hchan, hcount, hstatus, hkind, hcause, hsigv, hsigf, hbound, hlisv, hshut,
    hflag, hlaunch⟩ := h
  rcases step_begin_inv hs with ⟨rfl, hi, rfl⟩ | ⟨rfl, hi, rfl⟩
  · constructor <;> dsimp only <;> first | assumption | skip
    case launched => exact ⟨fun h0 => by simp at h0, hlaunch.2⟩
    case phase =>
      unfold phaseOK at hphase ⊢
      dsimp only
      split at hphase
      · rename_i k hk
        refine ⟨hphase.1, hphase.2.1, hphase.2.2.1, ?_, hphase.2.2.2.2⟩
        intro hk0
        have := hphase.2.2.2.1 hk0
        rw [hi] at this
        simp at this
      all_goals exact hphase
    case count => simpa [hi, ExecStatus.finished] using hcount
    case status =>
      intro i v hm
      obtain ⟨hlt, hst⟩ := hstatus i v hm
      refine ⟨hlt, ?_⟩
      simp only [RunState.status] at hst ⊢
      split_ifs at hst ⊢
      · rw [hi] at hst; simp at hst
      · exact hst
    case sigValue => intro v hv; simp at hv
  · constructor <;> dsimp only <;> first | assumption | skip
    case launched => exact ⟨hlaunch.1, fun h0 => by simp at h0⟩
    case phase =>
      unfold phaseOK at hphase ⊢
      dsimp only
      split at hphase
      · rename_i k hk
        have := hphase.2.2.2.2
        rw [hi] at this
        simp at this
      all_goals exact hphase
    case count => simpa [hi, ExecStatus.finished] using hcount
    case status =>
      intro i v hm
      obtain ⟨hlt, hst⟩ := hstatus i v hm
      refine ⟨hlt, ?_⟩
      simp only [RunState.status] at hst ⊢
      split_ifs at hst ⊢
      · exact hst
      · rw [hi] at hst; simp at hst
    case bound => intro _; exact Or.inl rfl
    case lisValue => intro v hv; simp at hv

/-- The invariant is kept when the process receives SIGTERM. -/
theorem inv_step_sigterm {s s' : RunState} (h : Inv s) (hs : step s .sigterm = some s') :
    Inv s' := by
  obtain ⟨hphase, hchan, hcount, hstatus, hkind, hcause, hsigv, hsigf, hbound, hlisv, hshut,
    hflag, hlaunch⟩ := h
  obtain ⟨hr, rfl⟩ := step_sigterm_inv hs
  constructor <;> dsimp only <;> first | assumption | skip
  case sigFirst =>
    intro v hv hp
    exact ⟨(hsigf v hv hp).1, rfl⟩

/-- The invariant is kept when the context passed to `Start` is done. -/
theorem inv_step_parentDone {s s' : RunState} {e : GoError} (h : Inv s)
    (hs : step s (.parentDone e) = some s') : Inv s' := by
  obtain ⟨hphase, hchan, hcount, hstatus, hkind, hcause, hsigv, hsigf, hbound, hlisv, hshut,
    hflag, hlaunch⟩ := h
  obtain ⟨he, hp, rfl⟩ := step_parentDone_inv hs
  constructor <;> dsimp only <;> first | assumption | skip
  case ctxKind =>
    intro c hc
    unfold doneWith at hc
    split at hc
    · rename_i c' hc'
      exact hkind c (hc' ▸ hc)
    · simp only [Option.some.injEq] at hc
      exact hc ▸ he
  case ctxCause => intro _; exact Or.inl (by simp)
  case sigFirst => intro v _ hp'; simp at hp'

/-- The invariant is kept when `net.Listen` returns. -/
theorem inv_step_listen {s s' : RunState} {r : Option GoError} (h : Inv s)
    (hs : step s (.listen r) = some s') : Inv s' := by
  obtain ⟨hphase, hchan, hcount, hstatus, hkind, hcause, hsigv, hsigf, hbound, hlisv, hshut,
    hflag, hlaunch⟩ := h
  obtain ⟨hr, hu, rfl⟩ := step_listen_inv hs
  constructor <;> dsimp only <;> first | assumption | skip
  case bound => intro _; exact Or.inl hr
  case lisValue => intro v hv; rw [hr] at hv; simp at hv

/-- The invariant is kept when `Run` receives a value. -/
theorem inv_step_recv {s s' : RunState} (h : Inv s) (hs : step s .recv = some s') :
    Inv s' := by
  obtain ⟨hphase, hchan, hcount, hstatus, hkind, hcause, hsigv, hsigf, hbound, hlisv, hshut,
    hflag, hlaunch⟩ := h
  rcases step_recv_inv hs with ⟨v, rest, hc, he, rfl⟩ | ⟨err, i, v, rest, hc, hlt, he, rfl⟩
  · constructor <;> dsimp only <;> first | assumption | skip
    case launched =>
      refine ⟨fun h0 => ?_, fun h0 => ?_⟩
      · have := hlaunch.1 h0; rw [hc] at this; simp at this
      · obtain ⟨k, hk⟩ := hlaunch.2 h0; rw [hc] at hk; simp at hk
    case phase =>
      unfold phaseOK at hphase ⊢
      rw [hc] at hphase
      dsimp only at hphase ⊢
      exact ⟨by decide, by rw [hphase.1]; rfl, by rw [hphase.2]; rfl⟩
    case chan => rw [hchan, he]; simp
  · constructor <;> dsimp only <;> first | assumption | skip
    case launched =>
      refine ⟨fun h0 => ?_, fun h0 => ?_⟩
      · have := hlaunch.1 h0; rw [hc] at this; simp at this
      · obtain ⟨k, hk⟩ := hlaunch.2 h0; rw [hc] at hk; simp at hk
    case phase =>
      unfold phaseOK at hphase ⊢
      rw [hc] at hphase
      dsimp only at hphase ⊢
      obtain ⟨h1, h2, hl, hh, hi⟩ := hphase
      refine ⟨by omega, by omega, by simp [hl], ?_, hi⟩
      cases hrec : s.received with
      | nil => rw [hrec] at hl; simp at hl; omega
      | cons a as => rw [hrec] at hh; simpa using hh
    case chan => rw [hchan, he]; simp

/-- The invariant is kept when `Run` calls an interrupt function. -/
theorem inv_step_interrupt {s s' : RunState} {o : Option GoError} (h : Inv s)
    (hs : step s (.interrupt o) = some s') : Inv s' := by
  obtain ⟨hphase, hchan, hcount, hstatus, hkind, hcause, hsigv, hsigf, hbound, hlisv, hshut,
    hflag, hlaunch⟩ := h
  rcases step_interrupt_inv hs with ⟨err, hc, rfl⟩ | ⟨err, hc, rfl⟩
  · constructor <;> dsimp only <;> first | assumption | skip
    case launched =>
      refine ⟨fun h0 => ?_, fun h0 => ?_⟩
      · have := hlaunch.1 h0; rw [hc] at this; simp at this
      · obtain ⟨k, hk⟩ := hlaunch.2 h0; rw [hc] at hk; simp at hk
    case phase =>
      unfold phaseOK at hphase ⊢
      rw [hc] at hphase
      dsimp only at hphase ⊢
      exact ⟨by decide, hphase.2.1, by rw [hphase.2.2]; rfl⟩
    case ctxKind =>
      intro c hc'
      unfold doneWith at hc'
      split at hc'
      · rename_i c' hc''
        exact hkind c (hc'' ▸ hc')
      · simp only [Option.some.injEq] at hc'
        exact Or.inl hc'.symm
    case ctxCause => intro _; exact Or.inr (by simp)
    case shut => rw [hshut]; simp [List.filter_append]
    case shutFlag => rw [hflag]; simp
  · constructor <;> dsimp only <;> first | assumption | skip
    case launched =>
      refine ⟨fun h0 => ?_, fun h0 => ?_⟩
      · have := hlaunch.1 h0; rw [hc] at this; simp at this
      · obtain ⟨k, hk⟩ := hlaunch.2 h0; rw [hc] at hk; simp at hk
    case phase =>
      unfold phaseOK at hphase ⊢
      rw [hc] at hphase
      dsimp only at hphase ⊢
      exact ⟨le_refl _, by decide, by rw [hphase.2.1]; rfl, by rw [hphase.2.1]; rfl,
        by rw [hphase.2.2]; rfl⟩
    case ctxCause => intro _; exact Or.inr (by simp)
    case shut => rw [hshut]; simp [List.filter_append]
    case shutFlag => simp

/-- The invariant is kept when `Run` returns. -/
theorem inv_step_finish {s s' : RunState} (h : Inv s) (hs : step s .finish = some s') :
    Inv s' := by
  obtain ⟨hphase, hchan, hcount, hstatus, hkind, hcause, hsigv, hsigf, hbound, hlisv, hshut,
    hflag, hlaunch⟩ := h
  obtain ⟨err, i, hc, hle, rfl⟩ := step_finish_inv hs
  constructor <;> dsimp only <;> first | assumption | skip
  case launched =>
    refine ⟨fun h0 => ?_, fun h0 => ?_⟩
    · have := hlaunch.1 h0; rw [hc] at this; simp at this
    · obtain ⟨k, hk⟩ := hlaunch.2 h0; rw [hc] at hk; simp at hk
  case phase =>
    unfold phaseOK at hphase ⊢
    rw [hc] at hphase
    dsimp only at hphase ⊢
    obtain ⟨h1, h2, hl, hh, hi⟩ := hphase
    exact ⟨by omega, hh, hi⟩

/-- A return does not change what the position of `Run` says, as long as the
returning goroutine was running. -/
theorem phaseOK_ret_sig {s : RunState} {v : Option GoError} (h : phaseOK s)
    (hr : s.sig = .running) :
    phaseOK { s with sig := .returned v, errors := s.errors ++ [v],
                     returns := s.returns ++ [(0, v)] } := by
  unfold phaseOK at h ⊢
  dsimp only
  split at h
  · refine ⟨h.1, h.2.1, h.2.2.1, ?_, h.2.2.2.2⟩
    intro hk0
    have := h.2.2.2.1 hk0
    rw [hr] at this
    simp at this
  all_goals exact h

/-- A return of the listener does not change what the position of `Run`
says. -/
theorem phaseOK_ret_lis {s : RunState} {v : Option GoError} (h : phaseOK s)
    (hr : s.lis = .running) :
    phaseOK { s with lis := .returned v, errors := s.errors ++ [v],
                     returns := s.returns ++ [(1, v)] } := by
  unfold phaseOK at h ⊢
  dsimp only
  split at h
  · have := h.2.2.2.2
    rw [hr] at this
    simp at this
  all_goals exact h

/-- The invariant is kept when `execute` of an actor returns. -/
theorem inv_step_ret {s s' : RunState} {i : Nat} {v : Option GoError} (h : Inv s)
    (hs : step s (.ret i v) = some s') : Inv s' := by
  obtain ⟨hphase, hchan, hcount, hstatus, hkind, hcause, hsigv, hsigf, hbound, hlisv, hshut,
    hflag, hlaunch⟩ := h
  rcases step_ret_inv hs with ⟨rfl, hr, hm, rfl⟩ | ⟨rfl, hr, hm, rfl⟩
  · have hmay : (s.sigChan = true ∧ v = some (.signalError SIGTERM)) ∨
        (∃ e, s.ctxErr = some e ∧ v = some e) := by
      simp only [sigMayReturn, Bool.or_eq_true, Bool.and_eq_true, beq_iff_eq] at hm
      rcases hm with ⟨h1, h2⟩ | ⟨h1, h2⟩
      · exact Or.inl ⟨h1, h2⟩
      · right
        cases hce : s.ctxErr with
        | none => rw [hce] at h1; simp at h1
        | some e => exact ⟨e, rfl, by rw [h2, hce]⟩
    constructor <;> dsimp only <;> first | assumption | skip
    case launched => exact ⟨fun h0 => by simp at h0, hlaunch.2⟩
    case phase => exact phaseOK_ret_sig hphase hr
    case chan => simp [hchan]
    case count =>
      rw [hr] at hcount
      simp only [List.length_append, List.length_singleton, hcount, ExecStatus.finished]
      omega
    case status =>
      intro j w hm'
      simp only [List.mem_append, List.mem_singleton, Prod.mk.injEq] at hm'
      rcases hm' with hm' | ⟨rfl, rfl⟩
      · obtain ⟨hlt, hst⟩ := hstatus j w hm'
        refine ⟨hlt, ?_⟩
        simp only [RunState.status] at hst ⊢
        split_ifs at hst ⊢
        · rw [hr] at hst; simp at hst
        · exact hst
      · exact ⟨by decide, rfl⟩
    case sigValue =>
      intro w hw
      simp only [ExecStatus.returned.injEq] at hw
      subst hw
      rcases hmay with ⟨-, h2⟩ | ⟨e, h1, h2⟩
      · exact Or.inl h2
      · rcases hkind e h1 with rfl | rfl
        · exact Or.inr (Or.inl h2)
        · exact Or.inr (Or.inr h2)
    case sigFirst =>
      intro w hw hp
      cases hret : s.returns with
      | nil =>
        rw [hret] at hw
        simp only [List.nil_append, List.head?_cons, Option.some.injEq, Prod.mk.injEq,
          true_and] at hw
        subst hw
        rcases hmay with h1 | ⟨e, h1, -⟩
        · exact ⟨h1.2, h1.1⟩
        · exfalso
          rcases hcause (by rw [h1]; simp) with h2 | h2
          · exact h2 hp
          · have h3 := phaseOK_interrupts hphase h2
            rw [hret] at hchan
            simp only [List.map_nil] at hchan
            have h4 : s.received = [] := (List.append_eq_nil.mp hchan.symm).1
            exact h3 h4
      | cons a as =>
        rw [hret] at hw
        simp only [List.cons_append, List.head?_cons] at hw
        exact hsigf w (by rw [hret]; simpa using hw) hp
  · constructor <;> dsimp only <;> first | assumption | skip
    case launched => exact ⟨hlaunch.1, fun h0 => by simp at h0⟩
    case phase => exact phaseOK_ret_lis hphase hr
    case chan => simp [hchan]
    case count =>
      rw [hr] at hcount
      simp only [List.length_append, List.length_singleton, hcount, ExecStatus.finished]
    case status =>
      intro j w hm'
      simp only [List.mem_append, List.mem_singleton, Prod.mk.injEq] at hm'
      rcases hm' with hm' | ⟨rfl, rfl⟩
      · obtain ⟨hlt, hst⟩ := hstatus j w hm'
        refine ⟨hlt, ?_⟩
        simp only [RunState.status] at hst ⊢
        split_ifs at hst ⊢
        · exact hst
        · rw [hr] at hst; simp at hst
      · exact ⟨by decide, rfl⟩
    case sigFirst =>
      intro w hw hp
      cases hret : s.returns with
      | nil =>
        rw [hret] at hw
        simp at hw
      | cons a as =>
        rw [hret] at hw
        simp only [List.cons_append, List.head?_cons] at hw
        exact hsigf w (by rw [hret]; simpa using hw) hp
    case bound => intro _; exact Or.inr ⟨v, rfl⟩
    case lisValue =>
      intro w hw
      simp only [ExecStatus.returned.injEq] at hw
      subst hw
      unfold lisMayReturn at hm
      split at hm
      · rename_i e he
        simp only [beq_iff_eq] at hm
        refine ⟨by rw [hm]; simp, ?_⟩
        intro e' he'
        rw [he] at he'
        simp only [ListenState.failed.injEq] at he'
        rw [hm, he']
      · rename_i hl
        refine ⟨?_, fun e' he' => by rw [hl] at he'; simp at he'⟩
        simp only [Bool.or_eq_true, Bool.and_eq_true, beq_iff_eq] at hm
        rcases hm with ⟨-, h2⟩ | h2
        · rw [h2]; simp
        · intro hn; rw [hn] at h2; simp [isAcceptError] at h2
      · rename_i hl
        refine ⟨?_, fun e' he' => by rw [hl] at he'; simp at he'⟩
        simp only [Bool.and_eq_true, beq_iff_eq] at hm
        rw [hm.2]; simp

/-- Every event keeps the invariant. -/
theorem inv_step {s s' : RunState} {ev : Event} (h : Inv s) (hs : step s ev = some s') :
    Inv s' := by
  cases ev with
  | spawn => exact inv_step_spawn h hs
  | begin i => exact inv_step_begin h hs
  | sigterm => exact inv_step_sigterm h hs
  | parentDone e => exact inv_step_parentDone h hs
  | listen r => exact inv_step_listen h hs
  | ret i v => exact inv_step_ret h hs
  | recv => exact inv_step_recv h hs
  | interrupt o => exact inv_step_interrupt h hs
  | finish => exact inv_step_finish h hs

/-- The invariant holds after every schedule. -/
theorem inv_exec {s : RunState} {sched : List Event}
    (h : exec RunState.init sched = some s) : Inv s :=
  exec_induction (fun _ _ _ hi hs => inv_step hi hs) inv_init h

/-! ## The group of `Start` -/

/-- When `Start` ran the group, the group's state is the one the schedule leads
to, `Start` has returned what `Run` has returned, and `g.Run()` was called. -/
theorem Start_group {env : Env} {srv : Server} {sched : List Event} {st : RunState}
    (h : (srv.Start env sched).group = some st) :
    exec RunState.init sched = some st ∧
    (srv.Start env sched).returned = st.coord.result ∧
    Effect.run ∈ (srv.Start env sched).trace := by
  unfold Server.Start at h ⊢
  split at h
  · simp at h
  · simp only at h ⊢
    split at h
    · simp at h
    · simp at h
    · split at h
      · simp at h
      · rename_i st' hst
        simp only [Option.some.injEq] at h
        subst h
        simp [hst]

/-- The value `Run` returned is at its final position. -/
theorem coord_result_eq {c : Coord} {r : Option GoError} (h : c.result = some r) :
    c = .done r := by
  cases c <;> simp [Coord.result] at h
  rw [h]

/-- When `Run` has returned, both actors have returned, both interrupt
functions were called with the returned value as cause, and that value is the
one of the first actor that returned. -/
theorem inv_at_done {s : RunState} (h : Inv s) {r : Option GoError} (hd : s.coord = .done r) :
    (∃ v w, s.sig = .returned v ∧ s.lis = .returned w) ∧
    s.interrupts = [(0, r), (1, r)] ∧
    ∃ i, s.returns.head? = some (i, r) := by
  have hp := h.phase
  unfold phaseOK at hp
  rw [hd] at hp
  dsimp only at hp
  obtain ⟨hlen, hhead, hint⟩ := hp
  have hchan := h.chan
  have hcount := h.count
  have hl : s.received.length + s.errors.length = s.returns.length := by
    have := congrArg List.length hchan
    simpa using this.symm
  refine ⟨?_, hint, ?_⟩
  · cases hs : s.sig <;> cases hl' : s.lis <;>
      simp only [hs, hl', ExecStatus.finished, numActors] at hcount hlen <;>
      first
      | omega
      | exact ⟨_, _, rfl, rfl⟩
  · cases hret : s.returns with
    | nil =>
      rw [hret] at hl
      simp only [List.length_nil] at hl
      simp only [numActors] at hlen
      omega
    | cons a as =>
      cases hrec : s.received with
      | nil => rw [hrec] at hlen; simp [numActors] at hlen
      | cons b bs =>
        rw [hret, hrec] at hchan
        rw [hrec] at hhead
        simp only [List.map_cons, List.cons_append, List.cons.injEq] at hchan
        simp only [List.head?_cons, Option.some.injEq] at hhead
        refine ⟨a.1, ?_⟩
        simp only [List.head?_cons, Option.some.injEq]
        rw [← hhead, ← hchan.1]

/-- Once both actors have returned, the remaining steps of `Run` are enabled
one after the other and end with its return. -/
theorem inv_progress {s : RunState} (h : Inv s)
    (hs : ∃ v, s.sig = .returned v) (hl : ∃ w, s.lis = .returned w) :
    ∃ k s' r, Jqplay.exec s (runEvents.drop k) = some s' ∧ s'.coord = .done r := by
  obtain ⟨v, hv⟩ := hs
  obtain ⟨w, hw⟩ := hl
  have hp := h.phase
  have hchan := h.chan
  have hcount := h.count
  rw [hv, hw] at hcount
  simp only [ExecStatus.finished] at hcount
  have hlen : s.received.length + s.errors.length = 2 := by
    have := congrArg List.length hchan
    simp only [List.length_map, List.length_append] at this
    omega
  unfold phaseOK at hp
  obtain ⟨coord, sig, lis, errors, sigChan, parentErr, ctxErr, lstate, inShutdown, returns,
    received, interrupts, shutdowns, logged⟩ := s
  dsimp only at hp hlen hv hw
  cases coord with
  | spawning k =>
    dsimp only at hp
    rw [hw] at hp
    simp at hp
  | waitFirst =>
    dsimp only at hp
    obtain ⟨hrec, -⟩ := hp
    subst hrec
    obtain ⟨a, b, rfl⟩ := List.length_eq_two.mp (by simpa using hlen : errors.length = 2)
    exact ⟨0, _, _, rfl, rfl⟩
  | interrupting err k =>
    dsimp only at hp
    obtain ⟨hk, hrec, -⟩ := hp
    subst hrec
    have hk2 : k = 0 ∨ k = 1 := by simp only [numActors] at hk; omega
    obtain ⟨a, rfl⟩ := List.length_eq_one.mp
      (by simp only [List.length_singleton] at hlen; omega : errors.length = 1)
    rcases hk2 with rfl | rfl
    · exact ⟨1, _, _, rfl, rfl⟩
    · exact ⟨2, _, _, rfl, rfl⟩
  | waitRest err i =>
    dsimp only at hp
    obtain ⟨h1, h2, hrl, -, -⟩ := hp
    have hk2 : i = 1 ∨ i = 2 := by simp only [numActors] at h2; omega
    rcases hk2 with rfl | rfl
    · obtain ⟨a, rfl⟩ := List.length_eq_one.mp (by omega : errors.length = 1)
      exact ⟨3, _, _, rfl, rfl⟩
    · exact ⟨4, _, _, rfl, rfl⟩
  | done err => exact ⟨5, _, _, rfl, rfl⟩

/-- A schedule continues from the state the events before it lead to. -/
theorem exec_append {s s₁ : RunState} {evs₁ evs₂ : List Event}
    (h : exec s evs₁ = some s₁) : exec s (evs₁ ++ evs₂) = exec s₁ evs₂ := by
  induction evs₁ generalizing s with
  | nil =>
    simp only [exec, Option.some.injEq] at h
    rw [h]; rfl
  | cons ev rest ih =>
    simp only [exec, List.cons_append] at h ⊢
    cases hs' : step s ev with
    | none => rw [hs'] at h; simp at h
    | some s' =>
      rw [hs'] at h
      exact ih h

/-- When `Start` ran the group under one schedule, it runs it under every
schedule, and returns what `Run` returns. -/
theorem Start_runs {env : Env} {srv : Server} {sched : List Event} {st : RunState}
    (h : (srv.Start env sched).group = some st) (sched' : List Event) :
    (srv.Start env sched').group = exec RunState.init sched' ∧
    (srv.Start env sched').returned = (exec RunState.init sched').bind (·.coord.result) := by
  unfold Server.Start at h ⊢
  split at h
  · simp at h
  · simp only at h ⊢
    split at h
    · simp at h
    · simp at h
    · cases hx : exec RunState.init sched' <;> simp

/-- The first value `Run` received is the value of the first actor that
returned. -/
theorem inv_first_received {s : RunState} (h : Inv s) {err : Option GoError}
    (hh : s.received.head? = some err) : ∃ i, s.returns.head? = some (i, err) := by
  have hchan := h.chan
  cases hrec : s.received with
  | nil => rw [hrec] at hh; simp at hh
  | cons b bs =>
    cases hret : s.returns with
    | nil => rw [hret, hrec] at hchan; simp at hchan
    | cons a as =>
      rw [hret, hrec] at hchan
      rw [hrec] at hh
      simp only [List.map_cons, List.cons_append, List.cons.injEq] at hchan
      simp only [List.head?_cons, Option.some.injEq] at hh
      refine ⟨a.1, ?_⟩
      simp only [List.head?_cons, Option.some.injEq]
      rw [← hh, ← hchan.1]

/-- Every interrupt call made so far carries the value of the first actor
that returned. -/
theorem inv_interrupt_cause {s : RunState} (h : Inv s) (hi : s.interrupts ≠ []) :
    ∃ i v, s.returns.head? = some (i, v) ∧ ∀ p ∈ s.interrupts, p.2 = v := by
  have hp := h.phase
  unfold phaseOK at hp
  have hall : ∀ (err : Option GoError) (k : Nat), ∀ p ∈ interruptsUpTo err k, p.2 = err := by
    intro err k p hp'
    simp only [interruptsUpTo, List.mem_map, List.mem_range] at hp'
    obtain ⟨i, -, rfl⟩ := hp'
    rfl
  split at hp
  · exact absurd hp.2.2.1 hi
  · exact absurd hp.2 hi
  · rename_i err k hc
    obtain ⟨i, hi'⟩ := inv_first_received h (by rw [hp.2.1]; rfl)
    exact ⟨i, err, hi', by rw [hp.2.2]; exact hall err k⟩
  · rename_i err k hc
    obtain ⟨i, hi'⟩ := inv_first_received h hp.2.2.2.1
    exact ⟨i, err, hi', by rw [hp.2.2.2.2]; exact hall err _⟩
  · rename_i err hc
    obtain ⟨i, hi'⟩ := inv_first_received h hp.2.1
    exact ⟨i, err, hi', by rw [hp.2.2]; exact hall err _⟩

/-! ## Runs do not get stuck -/

/-- A context that is done has an error. -/
theorem doneWith_isSome (c : Option GoError) (e : GoError) : (doneWith c e).isSome = true := by
  cases c <;> rfl

/-- The signal watcher's context is done after every event once its interrupt
function was called. -/
theorem ctxDoneOK_step {s s' : RunState} {ev : Event} (h : ctxDoneOK s)
    (hs : step s ev = some s') : ctxDoneOK s' := by
  unfold ctxDoneOK at h ⊢
  cases ev with
  | spawn => rcases step_spawn_inv hs with ⟨-, -, rfl⟩ | ⟨-, -, rfl⟩ <;> exact h
  | begin i => rcases step_begin_inv hs with ⟨-, -, rfl⟩ | ⟨-, -, rfl⟩ <;> exact h
  | sigterm => obtain ⟨-, rfl⟩ := step_sigterm_inv hs; exact h
  | parentDone e =>
    obtain ⟨-, -, rfl⟩ := step_parentDone_inv hs
    exact fun _ => doneWith_isSome _ _
  | listen r => obtain ⟨-, -, rfl⟩ := step_listen_inv hs; exact h
  | ret i v => rcases step_ret_inv hs with ⟨-, -, -, rfl⟩ | ⟨-, -, -, rfl⟩ <;> exact h
  | recv =>
    rcases step_recv_inv hs with ⟨v, rest, -, -, rfl⟩ | ⟨err, i, v, rest, -, -, -, rfl⟩ <;>
      exact h
  | interrupt o =>
    rcases step_interrupt_inv hs with ⟨err, -, rfl⟩ | ⟨err, -, rfl⟩
    · exact fun _ => doneWith_isSome _ _
    · rintro ⟨c, hc⟩
      simp only [List.mem_append, List.mem_singleton, Prod.mk.injEq, zero_ne_one, false_and,
        or_false] at hc
      exact h ⟨c, hc⟩
  | finish => obtain ⟨err, i, -, -, rfl⟩ := step_finish_inv hs; exact h

/-- Both invariants hold after every continuation of a run. -/
theorem reach_exec {s s' : RunState} {evs : List Event} (h : Inv s ∧ ctxDoneOK s)
    (he : exec s evs = some s') : Inv s' ∧ ctxDoneOK s' :=
  exec_induction (P := fun s => Inv s ∧ ctxDoneOK s)
    (fun _ _ _ hi hs => ⟨inv_step hi.1 hs, ctxDoneOK_step hi.2 hs⟩) h he

/-- Both invariants hold after every schedule. -/
theorem reach_init {s : RunState} {sched : List Event}
    (he : exec RunState.init sched = some s) : Inv s ∧ ctxDoneOK s :=
  reach_exec ⟨inv_init, fun h => by simp [RunState.init] at h⟩ he

/-- An event only adds to the list of returns. -/
theorem returns_step {s s' : RunState} {ev : Event} (hs : step s ev = some s') :
    ∃ l, s'.returns = s.returns ++ l := by
  cases ev with
  | spawn => rcases step_spawn_inv hs with ⟨-, -, rfl⟩ | ⟨-, -, rfl⟩ <;> exact ⟨[], by simp⟩
  | begin i => rcases step_begin_inv hs with ⟨-, -, rfl⟩ | ⟨-, -, rfl⟩ <;> exact ⟨[], by simp⟩
  | sigterm => obtain ⟨-, rfl⟩ := step_sigterm_inv hs; exact ⟨[], by simp⟩
  | parentDone e => obtain ⟨-, -, rfl⟩ := step_parentDone_inv hs; exact ⟨[], by simp⟩
  | listen r => obtain ⟨-, -, rfl⟩ := step_listen_inv hs; exact ⟨[], by simp⟩
  | ret i v => rcases step_ret_inv hs with ⟨-, -, -, rfl⟩ | ⟨-, -, -, rfl⟩ <;> exact ⟨_, rfl⟩
  | recv =>
    rcases step_recv_inv hs with ⟨v, rest, -, -, rfl⟩ | ⟨err, i, v, rest, -, -, -, rfl⟩ <;>
      exact ⟨[], by simp⟩
  | interrupt o =>
    rcases step_interrupt_inv hs with ⟨err, -, rfl⟩ | ⟨err, -, rfl⟩ <;> exact ⟨[], by simp⟩
  | finish => obtain ⟨err, i, -, -, rfl⟩ := step_finish_inv hs; exact ⟨[], by simp⟩

/-- The first actor that returned stays the first. -/
theorem head_exec {s s' : RunState} {evs : List Event} {x : Nat × Option GoError}
    (he : exec s evs = some s') (hx : s.returns.head? = some x) :
    s'.returns.head? = some x := by
  refine exec_induction (P := fun t => t.returns.head? = some x) ?_ hx he
  intro t t' ev ht hs
  obtain ⟨l, hl⟩ := returns_step hs
  cases hr : t.returns with
  | nil => rw [hr] at ht; simp at ht
  | cons a as =>
    rw [hr] at ht hl
    rw [hl]
    simpa using ht

/-- A launched goroutine of the signal watcher can enter `execute`. -/
theorem step_begin_sig {s : RunState} (h : s.sig = .spawned) :
    step s (.begin 0) = some { s with sig := .running } := by
  simp [step, RunState.status, RunState.setStatus, numActors, h]

/-- A launched goroutine of the listener can enter `execute`. -/
theorem step_begin_lis {s : RunState} (h : s.lis = .spawned) :
    step s (.begin 1) = some { s with lis := .running } := by
  simp [step, RunState.status, RunState.setStatus, numActors, h]

/-- The signal watcher returns every value its `select` allows. -/
theorem step_ret_sig {s : RunState} {v : Option GoError} (h : s.sig = .running)
    (hm : sigMayReturn s v = true) :
    step s (.ret 0 v) = some { s with sig := .returned v, errors := s.errors ++ [v],
                                      returns := s.returns ++ [(0, v)] } := by
  simp [step, RunState.status, RunState.setStatus, numActors, h, hm]

/-- The listener returns every value `ListenAndServe` allows. -/
theorem step_ret_lis {s : RunState} {v : Option GoError} (h : s.lis = .running)
    (hm : lisMayReturn s v = true) :
    step s (.ret 1 v) = some { s with lis := .returned v, errors := s.errors ++ [v],
                                      returns := s.returns ++ [(1, v)] } := by
  simp [step, RunState.status, RunState.setStatus, numActors, h, hm]

/-- Once its context is done, the signal watcher can return, whether its
goroutine has entered `execute` or not. -/
theorem sig_can_return {s : RunState} (hs : s.sig ≠ .idle) (hc : s.ctxErr.isSome = true) :
    ∃ evs s', exec s evs = some s' ∧ (∃ v, s'.sig = .returned v) ∧ s'.lis = s.lis ∧
      s'.lstate = s.lstate ∧ s'.inShutdown = s.inShutdown ∧
      ∀ ev ∈ evs, ev.ofGroup = true := by
  have hm : ∀ t : RunState, t.ctxErr = s.ctxErr → sigMayReturn t s.ctxErr = true := by
    intro t ht
    simp [sigMayReturn, ht, hc]
  cases h : s.sig with
  | idle => exact absurd h hs
  | spawned =>
    refine ⟨[.begin 0, .ret 0 s.ctxErr],
      { s with sig := .returned s.ctxErr, errors := s.errors ++ [s.ctxErr],
               returns := s.returns ++ [(0, s.ctxErr)] },
      ?_, ⟨s.ctxErr, rfl⟩, rfl, rfl, rfl, by simp [Event.ofGroup]⟩
    simp only [exec, step_begin_sig h]
    have h2 := @step_ret_sig { s with sig := .running } s.ctxErr rfl (hm _ rfl)
    rw [h2]
  | running =>
    refine ⟨[.ret 0 s.ctxErr],
      { s with sig := .returned s.ctxErr, errors := s.errors ++ [s.ctxErr],
               returns := s.returns ++ [(0, s.ctxErr)] },
      ?_, ⟨s.ctxErr, rfl⟩, rfl, rfl, rfl, by simp [Event.ofGroup]⟩
    simp only [exec, step_ret_sig h (hm _ rfl)]
  | returned v => exact ⟨[], s, rfl, ⟨v, h⟩, rfl, rfl, rfl, by simp⟩

/-- Once `Shutdown` was called, the listener can return, whether its goroutine
has entered `execute` or not. -/
theorem lis_can_return {s : RunState} (hl : s.lis ≠ .idle) (hd : s.inShutdown = true) :
    ∃ evs s', exec s evs = some s' ∧ (∃ w, s'.lis = .returned w) ∧ s'.sig = s.sig ∧
      ∀ ev ∈ evs, ev.ofGroup = true := by
  have hm : ∀ t : RunState, t.lstate = s.lstate → t.inShutdown = true →
      lisMayReturn t (lisReturnNow s) = true := by
    intro t ht hd'
    unfold lisMayReturn lisReturnNow
    rw [ht]
    cases s.lstate <;> simp [hd']
  cases h : s.lis with
  | idle => exact absurd h hl
  | spawned =>
    refine ⟨[.begin 1, .ret 1 (lisReturnNow s)],
      { s with lis := .returned (lisReturnNow s), errors := s.errors ++ [lisReturnNow s],
               returns := s.returns ++ [(1, lisReturnNow s)] },
      ?_, ⟨lisReturnNow s, rfl⟩, rfl, by simp [Event.ofGroup]⟩
    simp only [exec, step_begin_lis h]
    have h2 := @step_ret_lis { s with lis := .running } (lisReturnNow s) rfl (hm _ rfl hd)
    rw [h2]
  | running =>
    refine ⟨[.ret 1 (lisReturnNow s)],
      { s with lis := .returned (lisReturnNow s), errors := s.errors ++ [lisReturnNow s],
               returns := s.returns ++ [(1, lisReturnNow s)] },
      ?_, ⟨lisReturnNow s, rfl⟩, rfl, by simp [Event.ofGroup]⟩
    simp only [exec, step_ret_lis h (hm _ rfl hd)]
  | returned w => exact ⟨[], s, rfl, ⟨w, h⟩, rfl, by simp⟩

/-- Once an actor has returned, the next steps of `Run`, with no other event in
between, are enabled and call both interrupt functions with the value of the
first actor that returned. -/
theorem run_interrupts {s : RunState} (h : Inv s) {i : Nat} {v : Option GoError}
    (hf : s.returns.head? = some (i, v)) (o : Option GoError) :
    ∃ k s', exec s ((interruptAll o).drop k) = some s' ∧
      s'.interrupts = [(0, v), (1, v)] ∧ s'.returns = s.returns := by
  have hv : ∀ err, s.received.head? = some err → err = v := by
    intro err herr
    obtain ⟨j, hj⟩ := inv_first_received h herr
    rw [hf] at hj
    simp only [Option.some.injEq, Prod.mk.injEq] at hj
    exact hj.2.symm
  have hp := h.phase
  have hchan := h.chan
  have hcount := h.count
  unfold phaseOK at hp
  obtain ⟨coord, sig, lis, errors, sigChan, parentErr, ctxErr, lstate, inShutdown, returns,
    received, interrupts, shutdowns, logged⟩ := s
  dsimp only at hp hchan hcount hf hv
  cases returns with
  | nil => simp at hf
  | cons a rs =>
    simp only [List.head?_cons, Option.some.injEq] at hf
    subst hf
    simp only [List.map_cons, List.length_cons] at hchan hcount
    cases coord with
    | spawning k =>
      dsimp only at hp
      obtain ⟨hk, hrec, hint, hsig0, hlis⟩ := hp
      subst hrec hint hlis
      simp only [List.nil_append] at hchan
      subst hchan
      have hk1 : k = 1 := by
        rcases Nat.eq_zero_or_pos k with h0 | h0
        · rw [hsig0 h0] at hcount
          simp [ExecStatus.finished] at hcount
        · simp only [numActors] at hk; omega
      subst hk1
      exact ⟨0, _, rfl, rfl, rfl⟩
    | waitFirst =>
      dsimp only at hp
      obtain ⟨hrec, hint⟩ := hp
      subst hrec hint
      simp only [List.nil_append] at hchan
      subst hchan
      exact ⟨1, _, rfl, rfl, rfl⟩
    | interrupting err k =>
      dsimp only at hp
      obtain ⟨hk, hrec, hint⟩ := hp
      subst hrec hint
      have he : err = v := hv err rfl
      subst he
      have hk2 : k = 0 ∨ k = 1 := by simp only [numActors] at hk; omega
      rcases hk2 with rfl | rfl
      · exact ⟨2, _, rfl, rfl, rfl⟩
      · exact ⟨3, _, rfl, rfl, rfl⟩
    | waitRest err j =>
      dsimp only at hp
      obtain ⟨-, -, -, hh, hint⟩ := hp
      have he : err = v := hv err hh
      subst he hint
      exact ⟨4, _, rfl, rfl, rfl⟩
    | done err =>
      dsimp only at hp
      obtain ⟨-, hh, hint⟩ := hp
      have he : err = v := hv err hh
      subst he hint
      exact ⟨4, _, rfl, rfl, rfl⟩

/-- Runs do not get stuck after the first return: from every state of a run in
which an actor has returned, a continuation made only of the steps of `Run` and
of each remaining actor entering and leaving `execute` once interrupted (no
signal, no event of the context passed to `Start`, no `net.Listen`) ends with
the return of `Run`; there both interrupt functions were called with the first
returned value, both actors have returned, and `Run` returned that value. -/
theorem run_completes {s : RunState} (h : Inv s ∧ ctxDoneOK s) {i : Nat} {v : Option GoError}
    (hf : s.returns.head? = some (i, v)) :
    ∃ evs s', (∀ ev ∈ evs, ev.ofGroup = true) ∧ exec s evs = some s' ∧ s'.coord = .done v ∧
      s'.interrupts = [(0, v), (1, v)] ∧
      (∃ a b, s'.sig = .returned a ∧ s'.lis = .returned b) ∧
      s'.returns.head? = some (i, v) ∧ s'.inShutdown = true ∧
      s'.shutdowns = [shutdownTimeout] := by
  obtain ⟨k, s1, e1, hi1, -⟩ := run_interrupts h.1 hf none
  have r1 := reach_exec h e1
  have hnsp : ∀ k, s1.coord ≠ .spawning k := by
    intro k hk
    have hp := r1.1.phase
    unfold phaseOK at hp
    rw [hk] at hp
    have := hp.2.2.1
    rw [hi1] at this
    simp at this
  have hsig : s1.sig ≠ .idle := fun h0 => hnsp 0 (r1.1.launched.1 h0)
  have hlis : s1.lis ≠ .idle := fun h0 => by
    obtain ⟨k, hk⟩ := r1.1.launched.2 h0
    exact hnsp k hk
  have hctx : s1.ctxErr.isSome = true := r1.2 ⟨v, by rw [hi1]; simp⟩
  have hshut : s1.inShutdown = true := r1.1.shutFlag.mpr ⟨v, by rw [hi1]; simp⟩
  obtain ⟨evs2, s2, e2, hs2, hl2, -, hd2, hg2⟩ := sig_can_return hsig hctx
  obtain ⟨evs3, s3, e3, hl3, hs3, hg3⟩ :=
    lis_can_return (s := s2) (by rw [hl2]; exact hlis) (by rw [hd2]; exact hshut)
  have e13 : exec s1 (evs2 ++ evs3) = some s3 := by rw [exec_append e2]; exact e3
  have r3 := reach_exec r1 e13
  obtain ⟨k', s4, r, e4, hd4⟩ := inv_progress r3.1 (by rw [hs3]; exact hs2) hl3
  have e14 : exec s1 ((evs2 ++ evs3) ++ runEvents.drop k') = some s4 := by
    rw [exec_append e13]; exact e4
  have e04 : exec s ((interruptAll none).drop k ++ ((evs2 ++ evs3) ++ runEvents.drop k')) =
      some s4 := by
    rw [exec_append e1]; exact e14
  have r4 := reach_exec h e04
  obtain ⟨hboth, hint, j, hj⟩ := inv_at_done r4.1 hd4
  have hhead := head_exec e04 hf
  rw [hhead] at hj
  simp only [Option.some.injEq, Prod.mk.injEq] at hj
  obtain ⟨-, rfl⟩ := hj
  refine ⟨_, s4, ?_, e04, hd4, hint, hboth, hhead, ?_, ?_⟩
  · intro ev hev
    simp only [List.mem_append] at hev
    rcases hev with hev | (hev | hev) | hev
    · have := List.mem_of_mem_drop hev
      simp only [interruptAll, List.mem_cons, List.mem_singleton, List.not_mem_nil,
        or_false] at this
      rcases this with rfl | rfl | rfl | rfl <;> rfl
    · exact hg2 ev hev
    · exact hg3 ev hev
    · have := List.mem_of_mem_drop hev
      simp only [runEvents, List.mem_cons, List.mem_singleton, List.not_mem_nil,
        or_false] at this
      rcases this with rfl | rfl | rfl | rfl | rfl <;> rfl
  · exact r4.1.shutFlag.mpr ⟨v, by rw [hint]; simp⟩
  · rw [r4.1.shut, hint]
    rfl

/-- While `Run` waits for the first value and an actor has returned, the
receive is enabled and hands `Run` the value of the first actor that returned. -/
theorem recv_first {s : RunState} (h : Inv s) (hc : s.coord = .waitFirst) {i : Nat}
    {v : Option GoError} (hf : s.returns.head? = some (i, v)) :
    ∃ s', step s .recv = some s' ∧ s'.coord = .interrupting v 0 ∧ s'.received = [v] ∧
      s'.returns = s.returns := by
  have hp := h.phase
  have hchan := h.chan
  unfold phaseOK at hp
  rw [hc] at hp
  obtain ⟨coord, sig, lis, errors, sigChan, parentErr, ctxErr, lstate, inShutdown, returns,
    received, interrupts, shutdowns, logged⟩ := s
  dsimp only at hp hchan hf hc
  cases returns with
  | nil => simp at hf
  | cons a rs =>
    simp only [List.head?_cons, Option.some.injEq] at hf
    subst hf hc
    obtain ⟨hrec, -⟩ := hp
    subst hrec
    simp only [List.map_cons, List.nil_append] at hchan
    subst hchan
    exact ⟨_, rfl, rfl, rfl, rfl⟩

/-- No actor returns nil: the signal watcher returns a `SignalError` or the
error of its context, `ListenAndServe` always returns an error. -/
theorem returned_ne_nil {s : RunState} (h : Inv s) {j : Nat} {r : Option GoError}
    (hm : (j, r) ∈ s.returns) : r ≠ none := by
  obtain ⟨hj, hst⟩ := h.status j r hm
  simp only [RunState.status] at hst
  split_ifs at hst
  · rcases h.sigValue r hst with h' | h' | h' <;> rw [h'] <;> simp
  · exact (h.lisValue r hst).1

/-- A run of the group continues under a longer schedule. -/
theorem Start_continue {env : Env} {srv : Server} {sched : List Event} {st : RunState}
    (hg : (srv.Start env sched).group = some st) {evs : List Event} {st' : RunState}
    (he : exec st evs = some st') :
    exec RunState.init (sched ++ evs) = some st' ∧
    (srv.Start env (sched ++ evs)).group = some st' ∧
    (srv.Start env (sched ++ evs)).returned = st'.coord.result := by
  obtain ⟨hex, -, -⟩ := Start_group hg
  have h1 : exec RunState.init (sched ++ evs) = some st' := by rw [exec_append hex]; exact he
  obtain ⟨h2, h3⟩ := Start_runs hg (sched ++ evs)
  refine ⟨h1, by rw [h2, h1], ?_⟩
  rw [h3, h1]
  rfl

/-- Before any actor has returned, the context of the signal watcher is done
only if the context passed to `Start` is. -/
theorem ctx_not_done {s : RunState} (h : Inv s) (hr : s.returns = [])
    (hp : s.parentErr = none) : s.ctxErr = none ∧ s.interrupts = [] ∧ s.received = [] ∧
      s.errors = [] := by
  have hchan := h.chan
  rw [hr] at hchan
  simp only [List.map_nil] at hchan
  obtain ⟨hrec, herr⟩ := List.append_eq_nil.mp hchan.symm
  have hint : s.interrupts = [] := by
    by_contra hne
    exact phaseOK_interrupts h.phase hne hrec
  refine ⟨?_, hint, hrec, herr⟩
  by_contra hne
  rcases h.ctxCause hne with h1 | h1
  · exact h1 hp
  · exact h1 hint

/-- C2: in every run of the group that Start built (every schedule of events):
no interrupt function is called before an actor has returned, and every call
carries the value of the first actor that returned; as soon as an actor has
returned, whichever it is, the receive of Run is enabled and hands it that
value, and the next steps of Run, with no other event in between, call the
interrupt function of both actors (so of every other actor) with it, whatever
Shutdown returns; once Run has received the value its only next steps are the
interrupt calls; a continuation made only of steps of Run and of the actors
entering and leaving execute (no signal, no other outside event) then ends with
Start returning that value, both actors having returned; when Start has returned, both actors have
returned, both interrupt functions were called with the returned value, and
the value Start returned is the one of the first actor that returned; and once
both actors have returned, the remaining steps of Run make Start return. -/
theorem C2_first_return_interrupts_all (env : Env) (srv : Server) (sched : List Event)
    (st : RunState) (hg : (srv.Start env sched).group = some st) :
    (st.interrupts ≠ [] →
      ∃ i v, st.returns.head? = some (i, v) ∧ ∀ p ∈ st.interrupts, p.2 = v) ∧
    (∀ err k, st.coord = .interrupting err k →
      (∃ i, st.returns.head? = some (i, err)) ∧
      (∀ o, (step st (.interrupt o)).isSome = true) ∧
      step st .recv = none ∧ step st .finish = none ∧ step st .spawn = none) ∧
    (∀ r, (srv.Start env sched).returned = some r →
      (∃ v w, st.sig = .returned v ∧ st.lis = .returned w) ∧
      st.interrupts = [(0, r), (1, r)] ∧
      ∃ i, st.returns.head? = some (i, r)) ∧
    ((∃ v, st.sig = .returned v) → (∃ w, st.lis = .returned w) →
      ∃ k r, (srv.Start env (sched ++ runEvents.drop k)).returned = some r) ∧
    (∀ i v, st.returns.head? = some (i, v) →
      (st.coord = .waitFirst →
        ∃ st', step st .recv = some st' ∧ st'.coord = .interrupting v 0) ∧
      (∀ o, ∃ k st', exec st ((interruptAll o).drop k) = some st' ∧
        st'.interrupts = [(0, v), (1, v)] ∧ st'.returns = st.returns) ∧
      ∃ evs st', (∀ ev ∈ evs, ev.ofGroup = true) ∧ exec st evs = some st' ∧
        st'.interrupts = [(0, v), (1, v)] ∧
        (∃ a b, st'.sig = .returned a ∧ st'.lis = .returned b) ∧
        st'.returns.head? = some (i, v) ∧
        (srv.Start env (sched ++ evs)).returned = some v) := by
  obtain ⟨hex, hret, -⟩ := Start_group hg
  have hreach := reach_init hex
  have hinv : Inv st := hreach.1
  refine ⟨inv_interrupt_cause hinv, ?_, ?_, ?_, ?_⟩
  · intro err k hc
    have hp := hinv.phase
    unfold phaseOK at hp
    rw [hc] at hp
    dsimp only at hp
    refine ⟨inv_first_received hinv (by rw [hp.2.1]; rfl), ?_, ?_, ?_, ?_⟩
    · intro o
      simp only [step, hc, hp.1, if_true, Option.isSome_some]
    · simp only [step, hc]
    · simp only [step, hc]
    · simp only [step, hc]
  · intro r hr
    rw [hret] at hr
    exact inv_at_done hinv (coord_result_eq hr)
  · intro hs hl
    obtain ⟨k, s', r, he, hd⟩ := inv_progress hinv hs hl
    refine ⟨k, r, ?_⟩
    rw [(Start_runs hg _).2, exec_append hex, he]
    simp [hd, Coord.result]
  · intro i v hf
    refine ⟨?_, run_interrupts hinv hf, ?_⟩
    · intro hc
      obtain ⟨st', h1, h2, -, -⟩ := recv_first hinv hc hf
      exact ⟨st', h1, h2⟩
    · obtain ⟨evs, st', hgr, he, hd, hint, hboth, hhead, -, -⟩ := run_completes hreach hf
      refine ⟨evs, st', hgr, he, hint, hboth, hhead, ?_⟩
      rw [(Start_continue hg he).2.2, hd]
      rfl

/-- The run `sigtermRun`, in which the signal watcher returns first and Start
returns after both actors have returned; and the first five events of
`bindFailRun`, after which the listener has returned first while the signal
watcher has not begun: the next steps of Run interrupt both actors with the
listener's error. -/
theorem C2_first_return_interrupts_all_witness :
    ((srv3000.Start envOK sigtermRun).group.map (fun s => (s.sig, s.lis, s.interrupts)) =
        some (.returned (some (.signalError SIGTERM)), .returned (some .serverClosed),
          [(0, some (.signalError SIGTERM)), (1, some (.signalError SIGTERM))]) ∧
      ∀ r, (srv3000.Start envOK sigtermRun).returned = some r →
        ∃ i, (((srv3000.Start envOK sigtermRun).group.getD RunState.init).returns).head? =
          some (i, r)) ∧
    ((srv3000.Start envOK (bindFailRun.take 5)).group.map
        (fun s => (s.coord, s.sig, s.lis, s.returns)) =
        some (.waitFirst, .spawned, .returned (some addrInUse), [(1, some addrInUse)]) ∧
      ∀ o, ∃ k st',
        exec ((srv3000.Start envOK (bindFailRun.take 5)).group.getD RunState.init)
          ((interruptAll o).drop k) = some st' ∧
        st'.interrupts = [(0, some addrInUse), (1, some addrInUse)] ∧
        st'.returns = ((srv3000.Start envOK (bindFailRun.take 5)).group.getD
          RunState.init).returns) :=
  ⟨⟨rfl, fun r hr =>
      ((C2_first_return_interrupts_all envOK srv3000 sigtermRun
        ((srv3000.Start envOK sigtermRun).group.getD RunState.init) rfl).2.2.1 r hr).2.2⟩,
    ⟨rfl,
      ((C2_first_return_interrupts_all envOK srv3000 (bindFailRun.take 5)
        ((srv3000.Start envOK (bindFailRun.take 5)).group.getD RunState.init)
        rfl).2.2.2.2 1 (some addrInUse) rfl).2.1⟩⟩

/-- The log of shutdown errors influences no event: two states that agree
up to the log take the same step, whatever `srv.Shutdown` returns. -/
theorem step_dropLog {s t : RunState} (h : s.dropLog = t.dropLog) (ev : Event) :
    (step s ev).map RunState.dropLog = (step t ev.shutdownSucceeds).map RunState.dropLog := by
  obtain ⟨coord, sig, lis, errors, sigChan, parentErr, ctxErr, lstate, inShutdown, returns,
    received, interrupts, shutdowns, logged⟩ := s
  obtain ⟨coord', sig', lis', errors', sigChan', parentErr', ctxErr', lstate', inShutdown',
    returns', received', interrupts', shutdowns', logged'⟩ := t
  simp only [RunState.dropLog, RunState.mk.injEq, and_true] at h
  obtain ⟨rfl, rfl, rfl, rfl, rfl, rfl, rfl, rfl, rfl, rfl, rfl, rfl, rfl⟩ := h
  cases ev with
  | spawn =>
    simp only [step, Event.shutdownSucceeds, RunState.status, RunState.setStatus]
    split
    · split_ifs <;> simp [RunState.dropLog]
    · simp
  | begin i =>
    simp only [step, Event.shutdownSucceeds, RunState.status, RunState.setStatus]
    split_ifs <;> simp [RunState.dropLog]
  | sigterm =>
    simp only [step, Event.shutdownSucceeds]
    split_ifs <;> simp [RunState.dropLog]
  | parentDone e =>
    simp only [step, Event.shutdownSucceeds]
    split_ifs <;> simp [RunState.dropLog]
  | listen r =>
    simp only [step, Event.shutdownSucceeds]
    split_ifs <;> simp [RunState.dropLog]
  | ret i v =>
    simp only [step, Event.shutdownSucceeds, RunState.status, RunState.setStatus, sigMayReturn,
      lisMayReturn]
    split_ifs <;> simp [RunState.dropLog]
  | recv =>
    simp only [step, Event.shutdownSucceeds]
    split
    · simp [RunState.dropLog]
    · split_ifs <;> simp [RunState.dropLog]
    · simp
  | interrupt o =>
    simp only [step, Event.shutdownSucceeds, callInterrupt]
    split
    · split_ifs <;> simp [RunState.dropLog]
    · simp
  | finish =>
    simp only [step, Event.shutdownSucceeds]
    split
    · split_ifs <;> simp [RunState.dropLog]
    · simp

/-- Two runs from states that agree up to the log, under schedules that differ
only in what `srv.Shutdown` returns, agree up to the log. -/
theorem exec_dropLog (sched : List Event) {s t : RunState} (h : s.dropLog = t.dropLog) :
    (exec s sched).map RunState.dropLog =
      (exec t (sched.map Event.shutdownSucceeds)).map RunState.dropLog := by
  induction sched generalizing s t with
  | nil => simp [exec, h]
  | cons ev rest ih =>
    have hstep := step_dropLog h ev
    simp only [exec, List.map_cons]
    cases hs : step s ev with
    | none =>
      rw [hs] at hstep
      cases ht : step t ev.shutdownSucceeds with
      | none => rfl
      | some t' => rw [ht] at hstep; simp at hstep
    | some s' =>
      rw [hs] at hstep
      cases ht : step t ev.shutdownSucceeds with
      | none => rw [ht] at hstep; simp at hstep
      | some t' =>
        rw [ht] at hstep
        simp only [Option.map_some', Option.some.injEq] at hstep
        exact ih hstep

/-- The position of `Run` does not depend on the log. -/
theorem result_dropLog {a b : Option RunState}
    (h : a.map RunState.dropLog = b.map RunState.dropLog) :
    a.bind (·.coord.result) = b.bind (·.coord.result) := by
  cases a with
  | none =>
    cases b with
    | none => rfl
    | some t => simp at h
  | some s =>
    cases b with
    | none => simp at h
    | some t =>
      simp only [Option.map_some', Option.some.injEq] at h
      have hc : s.dropLog.coord = t.dropLog.coord := congrArg RunState.coord h
      replace hc : s.coord = t.coord := hc
      simp [hc]

/-- The value `Start` returns depends on the schedule only through the position
of `Run`. -/
theorem Start_returned (env : Env) (srv : Server) (sched sched' : List Event)
    (h : (exec RunState.init sched).bind (·.coord.result) =
      (exec RunState.init sched').bind (·.coord.result)) :
    (srv.Start env sched).returned = (srv.Start env sched').returned := by
  unfold Server.Start
  split
  · rfl
  · simp only
    split
    · rfl
    · rfl
    · cases hx : exec RunState.init sched <;> cases hy : exec RunState.init sched' <;>
        simp only [hx, hy, Option.bind] at h ⊢ <;> exact h

/-- C6: a shutdown failure is logged, not fatal. Whatever srv.Shutdown returns
(nil or an error), the listener's interrupt function completes: Run moves on to
waiting for the remaining actor, and an error is appended to the log and goes
nowhere else. The value Start returns under a schedule is the value it returns
under the same schedule with every Shutdown succeeding, and the group's states
agree up to the log; the value Start returns is the value of the first actor
that returned. -/
theorem C6_shutdown_failure_logged_only (env : Env) (srv : Server) (sched : List Event)
    (s : RunState) (err o : Option GoError) (hs : s.coord = .interrupting err 1) :
    (∃ s', step s (.interrupt o) = some s' ∧ s'.coord = .waitRest err 1 ∧
      s'.logged = logShutdown s.logged o ∧ s'.shutdowns = s.shutdowns ++ [shutdownTimeout] ∧
      (step s (.interrupt none)).map RunState.dropLog = some s'.dropLog) ∧
    (∀ e, logShutdown s.logged (some e) = s.logged ++ [e]) ∧
    logShutdown s.logged none = s.logged ∧
    (srv.Start env sched).returned =
      (srv.Start env (sched.map Event.shutdownSucceeds)).returned ∧
    (srv.Start env sched).group.map RunState.dropLog =
      (srv.Start env (sched.map Event.shutdownSucceeds)).group.map RunState.dropLog ∧
    (∀ st r, (srv.Start env sched).group = some st → (srv.Start env sched).returned = some r →
      ∃ i, st.returns.head? = some (i, r)) := by
  have hd := exec_dropLog sched (rfl : RunState.init.dropLog = RunState.init.dropLog)
  refine ⟨?_, fun _ => rfl, rfl, Start_returned env srv _ _ (result_dropLog hd), ?_, ?_⟩
  · refine ⟨{ callInterrupt s 1 o with
        coord := afterInterrupt err 1, interrupts := s.interrupts ++ [(1, err)] },
      ?_, ?_, ?_, ?_, ?_⟩
    · simp only [step, hs, numActors]
      rfl
    · rfl
    · rfl
    · rfl
    · simp only [step, hs, numActors]
      rfl
  · unfold Server.Start
    split
    · rfl
    · simp only
      split
      · rfl
      · rfl
      · cases hx : exec RunState.init sched <;>
          cases hy : exec RunState.init (sched.map Event.shutdownSucceeds) <;>
          simp only [hx, hy] at hd ⊢ <;> first | rfl | exact hd
  · intro st r hg hr
    obtain ⟨hex, hret, -⟩ := Start_group hg
    rw [hret] at hr
    exact (inv_at_done (inv_exec hex) (coord_result_eq hr)).2.2

/-- The run `sigtermRun`, in which Shutdown runs into its deadline: the error
is in the log and Start returns the signal watcher's value. -/
theorem C6_shutdown_failure_logged_only_witness :
    (exec RunState.init (sigtermRun.take 9)).map (·.coord) =
      some (.interrupting (some (.signalError SIGTERM)) 1) ∧
    (srv3000.Start envOK sigtermRun).group.map (·.logged) = some [.deadlineExceeded] ∧
    (srv3000.Start envOK sigtermRun).returned =
      (srv3000.Start envOK (sigtermRun.map Event.shutdownSucceeds)).returned :=
  ⟨by decide, by decide,
    (C6_shutdown_failure_logged_only envOK srv3000 sigtermRun
      ((exec RunState.init (sigtermRun.take 9)).getD RunState.init)
      (some (.signalError SIGTERM)) (some .deadlineExceeded) (by decide)).2.2.2.1⟩

/-- C3 as stated fails: in the run `sigtermRun` the listener is serving when
SIGTERM arrives and no actor has returned yet; the signal watcher then returns
first, with SignalError of SIGTERM and not nil; the listener is interrupted;
and Start returns that SignalError, not nil. -/
theorem C3_counterexample :
    (exec RunState.init (sigtermRun.take 6)).map
        (fun s => (s.sig, s.lis, s.lstate, s.sigChan, s.returns)) =
      some (.running, .running, .listening, true, []) ∧
    (srv3000.Start envOK sigtermRun).group.map (fun s => (s.returns.head?, s.inShutdown)) =
      some (some (0, some (.signalError SIGTERM)), true) ∧
    (srv3000.Start envOK sigtermRun).returned = some (some (.signalError SIGTERM)) ∧
    (srv3000.Start envOK sigtermRun).returned ≠ some none :=
  ⟨rfl, rfl, rfl, by decide⟩

/-- C3, amended: take any run of the group in which the process has received
SIGTERM while the listener is serving, no actor has returned yet and the
context passed to Start is not done. At that point the signal watcher's execute
can return, and the only value it can return is the non-nil SignalError of
SIGTERM.
When it returns now, for every outcome of Shutdown the rest of the shutdown is
enabled step by step: Run receives the value and calls both interrupt
functions (Shutdown under the 28 s timeout), the listener returns
ErrServerClosed, and Start returns that SignalError. In every continuation in
which the signal watcher is the first actor to return while the context is not
done, it returned that SignalError, whatever Start has returned is that
SignalError with the listener interrupted and returned, and a further
continuation made only of steps of Run and of the actors makes Start return
it. In no continuation does the signal watcher
return nil or Start return nil. -/
theorem C3_sigterm_returns_SignalError (env : Env) (srv : Server) (sched : List Event)
    (st : RunState) (hg : (srv.Start env sched).group = some st)
    (hsig : st.sigChan = true) (hw : st.sig = .running)
    (hl : st.lis = .running) (hls : st.lstate = .listening)
    (hp : st.parentErr = none) (hr : st.returns = []) :
    (∀ v, (step st (.ret 0 v)).isSome = true ↔ v = some (.signalError SIGTERM)) ∧
    (∀ o, ∃ st', exec st (sigtermTail o) = some st' ∧
      st'.coord = .done (some (.signalError SIGTERM)) ∧
      st'.returns = [(0, some (.signalError SIGTERM)), (1, some .serverClosed)] ∧
      st'.sig = .returned (some (.signalError SIGTERM)) ∧
      st'.lis = .returned (some .serverClosed) ∧
      st'.interrupts = [(0, some (.signalError SIGTERM)), (1, some (.signalError SIGTERM))] ∧
      st'.inShutdown = true ∧ st'.shutdowns = [shutdownTimeout] ∧
      st'.logged = logShutdown st.logged o ∧
      (srv.Start env (sched ++ sigtermTail o)).returned =
        some (some (.signalError SIGTERM))) ∧
    (∀ sched' st', exec st sched' = some st' →
      ∀ v, st'.returns.head? = some (0, v) → st'.parentErr = none →
        v = some (.signalError SIGTERM) ∧
        (∀ r, (srv.Start env (sched ++ sched')).returned = some r →
          r = some (.signalError SIGTERM) ∧ (1, r) ∈ st'.interrupts ∧
          st'.inShutdown = true ∧ st'.shutdowns = [shutdownTimeout] ∧
          ∃ w, st'.lis = .returned w) ∧
        ∃ evs, (∀ ev ∈ evs, ev.ofGroup = true) ∧
          (srv.Start env (sched ++ sched' ++ evs)).returned =
            some (some (.signalError SIGTERM))) ∧
    (∀ sched' st', exec st sched' = some st' →
      (∀ v, st'.sig = .returned v → v ≠ none) ∧
      ∀ r, (srv.Start env (sched ++ sched')).returned = some r → r ≠ none) := by
  obtain ⟨hex, hret, -⟩ := Start_group hg
  have hreach := reach_init hex
  have hinv : Inv st := hreach.1
  obtain ⟨hctx, hint, hrec, herr⟩ := ctx_not_done hinv hr hp
  have hshut : st.shutdowns = [] := by rw [hinv.shut, hint]; rfl
  have hflag : st.inShutdown = false := by
    cases hf : st.inShutdown with
    | false => rfl
    | true =>
      obtain ⟨c, hc⟩ := hinv.shutFlag.mp hf
      rw [hint] at hc
      simp at hc
  have hcoord : st.coord = .waitFirst := by
    have hph := hinv.phase
    unfold phaseOK at hph
    cases hc : st.coord with
    | spawning k =>
      rw [hc] at hph
      have := hph.2.2.2.2
      rw [hl] at this
      simp at this
    | waitFirst => rfl
    | interrupting err k => rw [hc] at hph; have := hph.2.1; rw [hrec] at this; simp at this
    | waitRest err i =>
      rw [hc] at hph
      obtain ⟨h1, -, h3, -, -⟩ := hph
      rw [hrec] at h3
      simp only [List.length_nil] at h3
      omega
    | done err =>
      rw [hc] at hph
      have := hph.1
      rw [hrec] at this
      simp [numActors] at this
  refine ⟨?_, ?_, ?_, ?_⟩
  · intro v
    simp only [step, RunState.status, numActors, hw, sigMayReturn, hsig, hctx]
    simp
  · intro o
    have hstart : ∀ st', exec st (sigtermTail o) = some st' →
        (srv.Start env (sched ++ sigtermTail o)).returned = st'.coord.result :=
      fun st' he => (Start_continue hg he).2.2
    obtain ⟨coord, sig, lis, errors, sigChan, parentErr, ctxErr, lstate, inShutdown, returns,
      received, interrupts, shutdowns, logged⟩ := st
    dsimp only at hsig hw hl hls hr hctx hint hrec herr hshut hflag hcoord
    subst hsig hw hl hls hr hctx hint hrec herr hshut hflag hcoord
    refine ⟨_, rfl, rfl, rfl, rfl, rfl, rfl, rfl, rfl, rfl, ?_⟩
    rw [hstart _ rfl]
    rfl
  · intro sched' st' he v hv hp'
    obtain ⟨he0, -, hret'⟩ := Start_continue hg he
    have hreach' := reach_init he0
    have hv' := (hreach'.1.sigFirst v hv hp').1
    subst hv'
    refine ⟨rfl, ?_, ?_⟩
    · intro r hr'
      rw [hret'] at hr'
      obtain ⟨⟨a, w, -, hw'⟩, hint', i, hi⟩ := inv_at_done hreach'.1 (coord_result_eq hr')
      rw [hv] at hi
      simp only [Option.some.injEq, Prod.mk.injEq] at hi
      have hr'' : r = some (.signalError SIGTERM) := hi.2.symm
      have hmem : (1, r) ∈ st'.interrupts := by rw [hint']; simp
      refine ⟨hr'', hmem, hreach'.1.shutFlag.mpr ⟨r, hmem⟩, ?_, w, hw'⟩
      rw [hreach'.1.shut, hint']
      rfl
    · obtain ⟨evs, st'', hgr, he'', hd, -⟩ := run_completes hreach' hv
      refine ⟨evs, hgr, ?_⟩
      have hg' := (Start_continue hg he).2.1
      rw [(Start_continue hg' he'').2.2, hd]
      rfl
  · intro sched' st' he
    obtain ⟨he0, -, hret'⟩ := Start_continue hg he
    have hreach' := reach_init he0
    refine ⟨?_, ?_⟩
    · intro v hv
      rcases hreach'.1.sigValue v hv with h | h | h <;> rw [h] <;> simp
    · intro r hr'
      rw [hret'] at hr'
      obtain ⟨-, -, i, hi⟩ := inv_at_done hreach'.1 (coord_result_eq hr')
      exact returned_ne_nil hreach'.1 (List.mem_of_mem_head? hi)

/-- The first six events of `sigtermRun` lead to a state in which SIGTERM has
been received while the listener serves; from there, with Shutdown running into
its deadline, Start returns the SignalError. -/
theorem C3_sigterm_returns_SignalError_witness :
    (srv3000.Start envOK (sigtermRun.take 6)).group.map
        (fun s => (s.sigChan, s.sig, s.lis, s.lstate, s.parentErr, s.returns)) =
      some (true, .running, .running, .listening, none, []) ∧
    (srv3000.Start envOK
        (sigtermRun.take 6 ++ sigtermTail (some .deadlineExceeded))).returned =
      some (some (.signalError SIGTERM)) :=
  ⟨rfl,
    ((C3_sigterm_returns_SignalError envOK srv3000 (sigtermRun.take 6)
      ((srv3000.Start envOK (sigtermRun.take 6)).group.getD RunState.init)
      rfl rfl rfl rfl rfl rfl rfl).2.1 (some .deadlineExceeded)).elim
      fun _ h => h.2.2.2.2.2.2.2.2.2⟩

/-- C5 as stated fails: in the run `bindFailRun` the port cannot be bound; when
`net.Listen` fails, `g.Run()` has launched both goroutines and the listener
actor's execute has begun (it is what called `net.Listen`); Start returns the
error only after that, from the group's run. -/
theorem C5_counterexample :
    (exec RunState.init (bindFailRun.take 3)).map (fun s => (s.lis, s.lstate)) =
      some (.running, .unbound) ∧
    (exec RunState.init (bindFailRun.take 4)).map
        (fun s => (s.coord, s.sig, s.lis, s.lstate, s.coord.result)) =
      some (.waitFirst, .spawned, .running, .failed addrInUse, none) ∧
    (srv3000.Start envOK bindFailRun).returned = some (some addrInUse) ∧
    (srv3000.Start envOK bindFailRun).trace =
      [.connectDB "postgres://db", .addSignalHandler SIGTERM, .newHTTPServer,
       .addListener ":3000", .run] :=
  ⟨rfl, rfl, rfl, rfl⟩

/-- C5, amended: a failure to bind the port happens inside the listener actor's
execute, during the group's run. In every run in which `net.Listen` has failed
with e, `g.Run()` was called and has launched both goroutines, and the
listener's execute has begun (it is running or has returned e); building the
server binds nothing; while the listener is running, the only value it can
return is e, and it can return it. When no actor has returned yet and the
listener returns e, or when the listener was the first actor to return, the
next steps of Run, with no other event in between, call both interrupt
functions with e, whatever Shutdown returns, and a continuation made only of
steps of Run and of the actors entering and leaving execute (no signal, no
other outside event) ends with Start returning e, both actors returned. When Start has returned
and the listener was the first actor to return, Start returned e. -/
theorem C5_bind_failure_inside_listener (env : Env) (srv : Server) (sched : List Event)
    (st : RunState) (e : GoError) (hg : (srv.Start env sched).group = some st)
    (hf : st.lstate = .failed e) :
    RunState.init.lstate = .unbound ∧
    Effect.run ∈ (srv.Start env sched).trace ∧
    (st.lis = .running ∨ st.lis = .returned (some e)) ∧
    st.sig ≠ .idle ∧ st.lis ≠ .idle ∧ st.lis ≠ .spawned ∧ (∀ k, st.coord ≠ .spawning k) ∧
    (∀ r v, (srv.Start env sched).returned = some r → st.returns.head? = some (1, v) →
      r = some e) ∧
    (st.lis = .running → ∀ v, (step st (.ret 1 v)).isSome = true ↔ v = some e) ∧
    (st.returns = [] →
      (∀ o, ∃ k st', exec st (.ret 1 (some e) :: (interruptAll o).drop k) = some st' ∧
        st'.interrupts = [(0, some e), (1, some e)]) ∧
      ∃ evs st', (∀ ev ∈ evs, ev.ofGroup = true) ∧
        exec st (.ret 1 (some e) :: evs) = some st' ∧
        st'.returns.head? = some (1, some e) ∧
        st'.interrupts = [(0, some e), (1, some e)] ∧
        (∃ a b, st'.sig = .returned a ∧ st'.lis = .returned b) ∧
        (srv.Start env (sched ++ .ret 1 (some e) :: evs)).returned = some (some e)) ∧
    (∀ v, st.returns.head? = some (1, v) →
      v = some e ∧
      (∀ o, ∃ k st', exec st ((interruptAll o).drop k) = some st' ∧
        st'.interrupts = [(0, some e), (1, some e)]) ∧
      ∃ evs st', (∀ ev ∈ evs, ev.ofGroup = true) ∧ exec st evs = some st' ∧
        st'.interrupts = [(0, some e), (1, some e)] ∧
        (∃ a b, st'.sig = .returned a ∧ st'.lis = .returned b) ∧
        (srv.Start env (sched ++ evs)).returned = some (some e)) := by
  obtain ⟨hex, hret, hrun⟩ := Start_group hg
  have hreach := reach_init hex
  have hinv : Inv st := hreach.1
  have hb : st.lis = .running ∨ st.lis = .returned (some e) := by
    rcases hinv.bound (by rw [hf]; simp) with h | ⟨v, h⟩
    · exact Or.inl h
    · right
      rw [h, (hinv.lisValue v h).2 e hf]
  have hnidle : st.lis ≠ .idle := by
    rcases hb with h | h <;> rw [h] <;> simp
  have hnsp : ∀ k, st.coord ≠ .spawning k := by
    intro k hk
    have hp := hinv.phase
    unfold phaseOK at hp
    rw [hk] at hp
    exact hnidle hp.2.2.2.2
  have hfirst : ∀ v, st.returns.head? = some (1, v) → v = some e := by
    intro v hv
    have hst := (hinv.status 1 v (List.mem_of_mem_head? hv)).2
    simp only [RunState.status] at hst
    exact (hinv.lisValue v hst).2 e hf
  refine ⟨rfl, hrun, hb, ?_, hnidle, ?_, hnsp, ?_, ?_, ?_, ?_⟩
  · intro h0
    exact hnsp 0 (hinv.launched.1 h0)
  · rcases hb with h | h <;> rw [h] <;> simp
  · intro r v hr hv
    rw [hret] at hr
    obtain ⟨-, -, i, hi⟩ := inv_at_done hinv (coord_result_eq hr)
    rw [hv] at hi
    simp only [Option.some.injEq, Prod.mk.injEq] at hi
    obtain ⟨-, rfl⟩ := hi
    exact hfirst v hv
  · intro hrunning v
    simp only [step, RunState.status, numActors, hrunning, lisMayReturn, hf]
    simp
  · intro hnone
    have hrunning : st.lis = .running := by
      rcases hb with h | h
      · exact h
      · have hc := hinv.count
        rw [hnone, h] at hc
        simp [ExecStatus.finished] at hc
    have hm : lisMayReturn st (some e) = true := by simp [lisMayReturn, hf]
    obtain ⟨st1, hstep, hret1⟩ : ∃ st1, step st (.ret 1 (some e)) = some st1 ∧
        st1.returns = st.returns ++ [(1, some e)] := ⟨_, step_ret_lis hrunning hm, rfl⟩
    have he1 : exec st [.ret 1 (some e)] = some st1 := by simp only [exec, hstep]
    have hg1 := (Start_continue hg he1).2.1
    have hreach1 := reach_init (Start_continue hg he1).1
    have hhead : st1.returns.head? = some (1, some e) := by rw [hret1, hnone]; rfl
    obtain ⟨evs, st', hgr, he, hd, hint, hboth, hh, -, -⟩ := run_completes hreach1 hhead
    refine ⟨?_, evs, st', hgr, ?_, hh, hint, hboth, ?_⟩
    · intro o
      obtain ⟨k, st'', he'', hint'', -⟩ := run_interrupts hreach1.1 hhead o
      refine ⟨k, st'', ?_, hint''⟩
      simp only [exec, hstep]
      exact he''
    · simp only [exec, hstep]
      exact he
    · have := (Start_continue hg1 he).2.2
      rw [List.append_assoc] at this
      rw [List.singleton_append] at this
      rw [this, hd]
      rfl
  · intro v hv
    have hve := hfirst v hv
    subst hve
    refine ⟨rfl, ?_, ?_⟩
    · intro o
      obtain ⟨k, st'', he'', hint'', -⟩ := run_interrupts hinv hv o
      exact ⟨k, st'', he'', hint''⟩
    obtain ⟨evs, st', hgr, he, hd, hint, hboth, -, -, -⟩ := run_completes hreach hv
    refine ⟨evs, st', hgr, he, hint, hboth, ?_⟩
    rw [(Start_continue hg he).2.2, hd]
    rfl

/-- The first four events of `bindFailRun` lead to the failed bind with no
actor returned; the listener then returns the error and some continuation makes
Start return it. In the whole run Start returned it. -/
theorem C5_bind_failure_inside_listener_witness :
    (srv3000.Start envOK (bindFailRun.take 4)).group.map (fun s => (s.lstate, s.returns)) =
      some (.failed addrInUse, []) ∧
    (∃ evs st', (∀ ev ∈ evs, ev.ofGroup = true) ∧
      exec ((srv3000.Start envOK (bindFailRun.take 4)).group.getD RunState.init)
        (.ret 1 (some addrInUse) :: evs) = some st' ∧
      st'.returns.head? = some (1, some addrInUse) ∧
      st'.interrupts = [(0, some addrInUse), (1, some addrInUse)] ∧
      (∃ a b, st'.sig = .returned a ∧ st'.lis = .returned b) ∧
      (srv3000.Start envOK (bindFailRun.take 4 ++ .ret 1 (some addrInUse) :: evs)).returned =
        some (some addrInUse)) ∧
    (srv3000.Start envOK bindFailRun).returned = some (some addrInUse) :=
  ⟨rfl,
    ((C5_bind_failure_inside_listener envOK srv3000 (bindFailRun.take 4)
      ((srv3000.Start envOK (bindFailRun.take 4)).group.getD RunState.init) addrInUse
      rfl rfl).2.2.2.2.2.2.2.2.2.1 rfl).2,
    rfl⟩

end Jqplay
